import Mathlib

/-!
Shallow embedding of the py-transmuter record-transformation engine.

Source records (Python dictionaries / pydantic model instances) are modelled
as association lists from field names to integer values; fallible operations
(key lookups, target-model construction) return `Option`.  Python's
`sorted(data, key=...)` is modelled as decorate-with-key followed by the
stable `List.mergeSort`; `defaultdict` grouping is an insertion-ordered
association fold, matching Python dict insertion order.  Python `set`s are
modelled as `Finset String`.
-/

namespace PyTransmuter

/-- A Python dictionary / model instance: field-name → value association list. -/
abbrev Record := List (String × Int)

/-- `data[field]` / `getattr(model, field)`: first binding of the key, `none`
(a KeyError / AttributeError) when absent. -/
def lookupField : Record → String → Option Int
  | [], _ => none
  | (k, v) :: rest, key => if k = key then some v else lookupField rest key

/-- A Python list comprehension `[f(x) for x in xs]` over a fallible body:
fails (raises) as soon as any element fails, otherwise collects in order. -/
def optionMapList (f : α → Option β) : List α → Option (List β)
  | [] => some []
  | x :: xs =>
    match f x with
    | none => none
    | some y => (optionMapList f xs).map (y :: ·)

theorem optionMapList_nil (f : α → Option β) : optionMapList f [] = some [] := rfl

theorem optionMapList_cons (f : α → Option β) (x : α) (xs : List α) :
    optionMapList f (x :: xs) =
      match f x with
      | none => none
      | some y => (optionMapList f xs).map (y :: ·) := rfl

theorem optionMapList_length {f : α → Option β} :
    ∀ {xs : List α} {ys : List β}, optionMapList f xs = some ys → ys.length = xs.length := by
  intro xs
  induction xs with
  | nil => intro ys h; simp [optionMapList] at h; simp [← h]
  | cons x xs ih =>
    intro ys h
    simp only [optionMapList] at h
    cases hx : f x with
    | none => rw [hx] at h; simp at h
    | some y =>
      rw [hx] at h
      cases hxs : optionMapList f xs with
      | none => rw [hxs] at h; simp at h
      | some zs =>
        rw [hxs] at h
        simp at h
        subst h
        simp [ih hxs]

theorem optionMapList_get {f : α → Option β} :
    ∀ {xs : List α} {ys : List β}, optionMapList f xs = some ys →
      ∀ (i : Nat) (hx : i < xs.length) (hy : i < ys.length),
        f (xs.get ⟨i, hx⟩) = some (ys.get ⟨i, hy⟩) := by
  intro xs
  induction xs with
  | nil => intro ys h i hx hy; simp at hx
  | cons x xs ih =>
    intro ys h i hx hy
    simp only [optionMapList] at h
    cases hx' : f x with
    | none => rw [hx'] at h; simp at h
    | some y =>
      rw [hx'] at h
      cases hxs : optionMapList f xs with
      | none => rw [hxs] at h; simp at h
      | some zs =>
        rw [hxs] at h
        simp at h
        subst h
        cases i with
        | zero => simpa using hx'
        | succ j =>
          simp only [List.get]
          exact ih hxs j (by simpa using hx) (by simpa using hy)

theorem optionMapList_none_of_mem {f : α → Option β} {xs : List α} {x : α}
    (hmem : x ∈ xs) (hf : f x = none) : optionMapList f xs = none := by
  induction xs with
  | nil => simp at hmem
  | cons a xs ih =>
    simp only [optionMapList]
    rcases List.mem_cons.mp hmem with h | h
    · subst h; rw [hf]
    · cases ha : f a with
      | none => rfl
      | some y => rw [ih h]; rfl

theorem optionMapList_eq_map {f : α → Option β} {g : α → β}
    (hg : ∀ x, f x = some (g x)) :
    ∀ (xs : List α), optionMapList f xs = some (xs.map g) := by
  intro xs
  induction xs with
  | nil => rfl
  | cons x xs ih => simp [optionMapList, hg x, ih]

theorem optionMapList_mem_of_eq_some {f : α → Option β} :
    ∀ {xs : List α} {ys : List β}, optionMapList f xs = some ys →
      ∀ {x : α}, x ∈ xs → ∃ y, f x = some y := by
  intro xs
  induction xs with
  | nil => intro ys _ x hx; simp at hx
  | cons a xs ih =>
    intro ys h x hx
    simp only [optionMapList] at h
    cases ha : f a with
    | none => rw [ha] at h; simp at h
    | some y =>
      rw [ha] at h
      cases hxs : optionMapList f xs with
      | none => rw [hxs] at h; simp at h
      | some zs =>
        rcases List.mem_cons.mp hx with hx | hx
        · exact ⟨y, hx ▸ ha⟩
        · exact ih hxs hx

/-- If every element succeeds, `optionMapList` is the plain `map` of the
extracted values. -/
theorem optionMapList_eq_some_iff {f : α → Option β} {xs : List α} :
    (∃ ys, optionMapList f xs = some ys) ↔ ∀ x ∈ xs, ∃ y, f x = some y := by
  constructor
  · rintro ⟨ys, h⟩ x hx
    exact optionMapList_mem_of_eq_some h hx
  · intro h
    induction xs with
    | nil => exact ⟨[], rfl⟩
    | cons a xs ih =>
      obtain ⟨y, hy⟩ := h a (List.mem_cons_self a xs)
      obtain ⟨ys, hys⟩ := ih (fun x hx => h x (List.mem_cons_of_mem a hx))
      exact ⟨y :: ys, by simp [optionMapList, hy, hys]⟩

/-! ### Lexicographic comparison of key tuples

Python sorts by comparing key tuples lexicographically; `lexLe` is the
(non-strict) lexicographic order on the value lists modelling those tuples. -/

def lexLe : List Int → List Int → Bool
  | [], _ => true
  | _ :: _, [] => false
  | a :: as, b :: bs => if a < b then true else if b < a then false else lexLe as bs

theorem lexLe_refl : ∀ (l : List Int), lexLe l l = true := by
  intro l
  induction l with
  | nil => rfl
  | cons a as ih => simp [lexLe, ih]

theorem lexLe_total : ∀ (l₁ l₂ : List Int), lexLe l₁ l₂ || lexLe l₂ l₁ := by
  intro l₁
  induction l₁ with
  | nil => intro l₂; simp [lexLe]
  | cons a as ih =>
    intro l₂
    cases l₂ with
    | nil => simp [lexLe]
    | cons b bs =>
      simp only [lexLe]
      rcases lt_trichotomy a b with h | h | h
      · simp [h]
      · subst h
        simpa [lt_irrefl] using ih bs
      · simp [h, not_lt_of_gt h]

theorem lexLe_trans :
    ∀ (l₁ l₂ l₃ : List Int), lexLe l₁ l₂ → lexLe l₂ l₃ → lexLe l₁ l₃ := by
  intro l₁
  induction l₁ with
  | nil => intro l₂ l₃ _ _; rfl
  | cons a as ih =>
    intro l₂ l₃ h12 h23
    cases l₂ with
    | nil => simp [lexLe] at h12
    | cons b bs =>
      cases l₃ with
      | nil => simp [lexLe] at h23
      | cons c cs =>
        simp only [lexLe] at h12 h23 ⊢
        rcases lt_trichotomy a b with hab | hab | hab
        · rcases lt_trichotomy b c with hbc | hbc | hbc
          · simp [lt_trans hab hbc]
          · subst hbc; simp [hab]
          · simp only [if_neg (not_lt_of_gt hbc), if_pos hbc] at h23
            simp at h23
        · subst hab
          rcases lt_trichotomy a c with hac | hac | hac
          · simp [hac]
          · subst hac
            rw [if_neg (lt_irrefl a), if_neg (lt_irrefl a)] at h12 h23 ⊢
            exact ih bs cs h12 h23
          · simp only [if_neg (not_lt_of_gt hac), if_pos hac] at h23
            simp at h23
        · simp only [if_neg (not_lt_of_gt hab), if_pos hab] at h12
          simp at h12

/-! ### First-occurrence key order

`firstOccur l` lists the distinct elements of `l` in order of first
appearance — the enumeration order of a Python dict keyed during a single
left-to-right pass. -/

def firstOccur [DecidableEq α] : List α → List α
  | [] => []
  | a :: rest => a :: (firstOccur rest).filter (fun x => x ≠ a)

theorem mem_firstOccur [DecidableEq α] {a : α} :
    ∀ {l : List α}, a ∈ firstOccur l ↔ a ∈ l := by
  intro l
  induction l with
  | nil => simp [firstOccur]
  | cons b rest ih =>
    simp only [firstOccur, List.mem_cons, List.mem_filter]
    by_cases hab : a = b
    · simp [hab]
    · simp [hab, ih]

theorem nodup_firstOccur [DecidableEq α] : ∀ (l : List α), (firstOccur l).Nodup := by
  intro l
  induction l with
  | nil => simp [firstOccur]
  | cons a rest ih =>
    simp only [firstOccur, List.nodup_cons]
    constructor
    · intro hmem
      have := (List.mem_filter.mp hmem).2
      simp at this
    · exact ih.filter _

theorem firstOccur_filter [DecidableEq α] (p : α → Bool) :
    ∀ (l : List α), firstOccur (l.filter p) = (firstOccur l).filter p := by
  intro l
  induction l with
  | nil => simp [firstOccur]
  | cons a rest ih =>
    by_cases ha : p a
    · simp only [List.filter_cons, ha, firstOccur, ih]
      rw [List.filter_filter, List.filter_filter]
      congr 1
      apply List.filter_congr
      intro x _
      simp [Bool.and_comm]
    · have ha' : p a = false := by simpa using ha
      simp only [List.filter_cons, ha', Bool.false_eq_true, if_false, firstOccur, ih]
      rw [List.filter_filter]
      apply List.filter_congr
      intro x _
      by_cases hx : p x
      · have : x ≠ a := by rintro rfl; rw [hx] at ha'; simp at ha'
        simp [hx, this]
      · simp [hx]

/-! ### Instruction shapes

A mapping value is a bare field name, a `(field, fn)` tuple, or a callable
taking the whole record; an aggregation value is a `(field, fn)` tuple whose
function takes the list of field values, or a callable taking the whole group.
The Python dispatch (`isinstance(x, tuple)` / `callable(x)` / bare key) is on
disjoint shapes, modelled as constructors.  User-supplied callables are
Lean functions (Python free functions, returned unchanged by
`resolve_callable`). -/

inductive MappingField where
  | direct (name : String)
  | tupleMap (name : String) (fn : Int → Int)
  | callableMap (fn : Record → Int)

inductive Aggregation where
  | tupleAgg (name : String) (fn : List Int → Int)
  | callableAgg (fn : List Record → Int)

/-- A `group_by` / `sort_by` entry: a field name or a whole-record callable. -/
inductive Selector where
  | field (name : String)
  | callable (fn : Record → Int)

/-- One component of a sort/group key tuple:
`self.resolve_callable(field)(item) if callable(field) else item[field]`. -/
def selectorValue (item : Record) : Selector → Option Int
  | .field name => lookupField item name
  | .callable fn => some (fn item)

/-- The key tuple built from a tuple of selectors for one record. -/
def keyTuple (sel : List Selector) (item : Record) : Option (List Int) :=
  optionMapList (selectorValue item) sel

/-- Total version of `keyTuple`, meaningful on records where every selector
succeeds (which the `Option` plumbing guarantees at every use site). -/
def keyTupleD (sel : List Selector) (item : Record) : List Int :=
  (keyTuple sel item).getD []

/-- An output-dictionary value: aggregations contribute one value per group,
mappings contribute one list per group. -/
inductive OutVal where
  | single (v : Int)
  | vlist (vs : List Int)
deriving DecidableEq

/-- An output record of the aggregators: target-field → value dictionary. -/
abbrev OutRecord := List (String × OutVal)

/-- Assoc-list lookup for output dictionaries. -/
def lookupOut : OutRecord → String → Option OutVal
  | [], _ => none
  | (k, v) :: rest, key => if k = key then some v else lookupOut rest key

/-- Python's `{**a, **b}`: keys of `a` in order (values from `b` where
shared), then keys of `b` not in `a`. -/
def dictMerge (a b : OutRecord) : OutRecord :=
  a.map (fun (p : String × OutVal) => (p.1, (lookupOut b p.1).getD p.2))
    ++ b.filter (fun (p : String × OutVal) => (lookupOut a p.1).isNone)

/-- When no key of `b` occurs in `a` and vice versa, `{**a, **b}` is plain
concatenation. -/
theorem dictMerge_of_disjoint {a b : OutRecord}
    (hab : ∀ p ∈ a, lookupOut b p.1 = none)
    (hba : ∀ p ∈ b, lookupOut a p.1 = none) :
    dictMerge a b = a ++ b := by
  unfold dictMerge
  congr 1
  · calc a.map (fun p => (p.1, (lookupOut b p.1).getD p.2))
        = a.map id := by
          apply List.map_congr_left
          intro p hp
          rw [hab p hp]
          rfl
      _ = a := List.map_id a
  · apply List.filter_eq_self.mpr
    intro p hp
    rw [hba p hp]
    rfl

/-! ### DictionaryMapper (`py_transmuter/dictionary_mapping/mapper.py`) -/

structure DictionaryMapper where
  mapping : Option (List (String × MappingField))

namespace DictionaryMapper

/-- `DictionaryMapper.resolve_field`: tuple ⇒ apply `fn` to `data[field]`;
callable ⇒ apply to the record; otherwise direct key lookup. -/
def resolve_field (data : Record) : MappingField → Option Int
  | .tupleMap src fn => (lookupField data src).map fn
  | .callableMap fn => some (fn data)
  | .direct name => lookupField data name

/-- `DictionaryMapper.map`: one output dictionary entry per `mapping` entry. -/
def map (m : DictionaryMapper) (data : Record) : Option Record :=
  match m.mapping with
  | none => none
  | some mp =>
    optionMapList (fun p => (resolve_field data p.2).map (fun v => (p.1, v))) mp

/-- `DictionaryMapper.map_list`: `[self.map(item) for item in data]`. -/
def map_list (m : DictionaryMapper) (data : List Record) : Option (List Record) :=
  optionMapList m.map data

/-- `DictionaryMapper.assert_is_valid_mapper`: only presence of `mapping`. -/
def assert_is_valid_mapper (m : DictionaryMapper) : Except String Unit :=
  match m.mapping with
  | none => .error "The mapper must define a mapping dictionary."
  | some _ => .ok ()

end DictionaryMapper

/-! ### DictionaryAggregator (`py_transmuter/dictionaries/aggregator.py`) -/

structure DictionaryAggregator where
  group_by : Option (List Selector)
  sort_by : Option (List Selector)
  mappings : Option (List (String × MappingField))
  aggregations : Option (List (String × Aggregation))

/-- A configuration error of `assert_is_valid_aggregator`; Python raises
`ValueError` whose message carries the comma-joined offending field set. -/
inductive AggConfigError where
  | noInstructions
  | doubleDefinitions (fields : Finset String)
  | missingRequired (fields : Finset String) (modelName : String)
  | extraFields (fields : Finset String) (modelName : String)
deriving DecidableEq

namespace DictionaryAggregator

/-- `DictionaryAggregator.resolve_mapping` (same dispatch as the mapper's
`resolve_field`, tuple first, then callable, then direct key). -/
def resolve_mapping (mapping_field : MappingField) (external_data : Record) : Option Int :=
  match mapping_field with
  | .tupleMap src fn => (lookupField external_data src).map fn
  | .callableMap fn => some (fn external_data)
  | .direct name => lookupField external_data name

/-- `DictionaryAggregator.resolve_aggregation`: tuple ⇒ `fn` applied to the
per-field list collected over the group; callable ⇒ applied to the group. -/
def resolve_aggregation (aggregation : Aggregation) (group : List Record) : Option Int :=
  match aggregation with
  | .tupleAgg src fn => (optionMapList (fun item => lookupField item src) group).map fn
  | .callableAgg fn => some (fn group)

/-- `DictionaryAggregator.resolve_group_objects`: aggregated fields first,
then mapped fields (one list per mapping, one entry per group member),
merged as `{**aggregated_fields, **mapped_fields}`. -/
def resolve_group_objects (agg : DictionaryAggregator) (group : List Record) :
    Option OutRecord :=
  match
    (match agg.aggregations with
     | none => some []
     | some aggs =>
       optionMapList
         (fun (p : String × Aggregation) =>
           (resolve_aggregation p.2 group).map (fun v => (p.1, OutVal.single v)))
         aggs)
  with
  | none => none
  | some aggregated_fields =>
    match
      (match agg.mappings with
       | none => some []
       | some maps =>
         optionMapList
           (fun (p : String × MappingField) =>
             (optionMapList (fun item => resolve_mapping p.2 item) group).map
               (fun vs => (p.1, OutVal.vlist vs)))
           maps)
    with
    | none => none
    | some mapped_fields => some (dictMerge aggregated_fields mapped_fields)

/-- `DictionaryAggregator.sort_data`: `sorted(data, key=...)` — CPython
computes every key once (decorate), then runs its stable sort; modelled as
decoration followed by the stable `mergeSort` under `lexLe` on key tuples. -/
def sort_data (agg : DictionaryAggregator) (data : List Record) : Option (List Record) :=
  match agg.sort_by with
  | none => none
  | some sel =>
    match optionMapList (fun item => (keyTuple sel item).map (fun k => (item, k))) data with
    | none => none
    | some keyed =>
      some ((keyed.mergeSort (fun p q => lexLe p.2 q.2)).map Prod.fst)

/-- Lines 90–91 of `aggregate`: sort only when `sort_by` is configured. -/
def sortPhase (agg : DictionaryAggregator) (data : List Record) : Option (List Record) :=
  match agg.sort_by with
  | none => some data
  | some _ => agg.sort_data data

/-- One step of the `defaultdict(list)` loop: append `item` to the bucket of
key `k`, creating the bucket at the end (dict insertion order) if absent. -/
def insertItem (k : List Int) (item : Record) :
    List (List Int × List Record) → List (List Int × List Record)
  | [] => [(k, [item])]
  | (k', g) :: rest =>
    if k' = k then (k', g ++ [item]) :: rest else (k', g) :: insertItem k item rest

/-- The grouping loop over key-decorated records. -/
def groupFold (acc : List (List Int × List Record)) :
    List (List Int × Record) → List (List Int × List Record)
  | [] => acc
  | (k, item) :: rest => groupFold (insertItem k item acc) rest

/-- `DictionaryAggregator.group_data`: bucket records by `group_by` key
tuple; emitted bucket order is dict insertion order (`list(groups.values())`). -/
def group_data (agg : DictionaryAggregator) (data : List Record) :
    Option (List (List Record)) :=
  match agg.group_by with
  | none => none
  | some sel =>
    match optionMapList (fun item => (keyTuple sel item).map (fun k => (k, item))) data with
    | none => none
    | some keyed => some ((groupFold [] keyed).map Prod.snd)

/-- `DictionaryAggregator.aggregate`: sort (if configured), group (one
implicit whole-input group when `group_by` is absent), resolve each group. -/
def aggregate (agg : DictionaryAggregator) (data : List Record) :
    Option (List OutRecord) :=
  match agg.sortPhase data with
  | none => none
  | some data1 =>
    match
      (match agg.group_by with
       | none => some [data1]
       | some _ => agg.group_data data1)
    with
    | none => none
    | some groups => optionMapList agg.resolve_group_objects groups

/-- Keys of an optional instruction dictionary, as the Python `set(...keys())`. -/
def definedKeys {α : Type} : Option (List (String × α)) → Finset String
  | none => ∅
  | some l => (l.map Prod.fst).toFinset

/-- `DictionaryAggregator.assert_is_valid_aggregator`: requires at least one
of `mappings`/`aggregations`, and no key owned by both. -/
def assert_is_valid_aggregator (agg : DictionaryAggregator) :
    Except AggConfigError Unit :=
  if agg.aggregations.isNone ∧ agg.mappings.isNone then
    .error .noInstructions
  else
    let defined_aggregations := definedKeys agg.aggregations
    let defined_mappings := definedKeys agg.mappings
    let double_definitions := defined_mappings ∩ defined_aggregations
    if double_definitions ≠ ∅ then
      .error (.doubleDefinitions double_definitions)
    else
      .ok ()

end DictionaryAggregator

/-! ### Target schema (`py_transmuter/pydantic_mapping/utils.py`)

A pydantic model class is, for the engine's purposes, its name plus its
type hints.  A type hint distinguishes `X | Y` (`types.UnionType`),
`Union[X, Y]` / `Optional[X]` (`typing.Union`), `NoneType`, and any other
plain class — the shapes `get_required_fields` branches on. -/

inductive PyTypeAtom where
  | noneType
  | plain (tyName : String)
deriving DecidableEq

inductive PyType where
  | atom (a : PyTypeAtom)
  | unionType (args : List PyTypeAtom)
  | typingUnion (args : List PyTypeAtom)
deriving DecidableEq

structure TargetSchema where
  name : String
  typeHints : List (String × PyType)

/-- `get_required_fields`: a field is required unless its hint is a
`UnionType` or `typing.Union` that contains `NoneType` among its args
(the third branch always appends, since no ordinary class is a subclass of
`type(Optional)`). -/
def get_required_fields (hints : List (String × PyType)) : List String :=
  hints.filterMap
    (fun (p : String × PyType) =>
      match p.2 with
      | .unionType args => if args.contains PyTypeAtom.noneType then none else some p.1
      | .typingUnion args => if args.contains PyTypeAtom.noneType then none else some p.1
      | _ => some p.1)

/-- `target_model.__annotations__.keys()`: every declared field name. -/
def TargetSchema.allFields (t : TargetSchema) : Finset String :=
  (t.typeHints.map Prod.fst).toFinset

/-- `set(get_required_fields(target_model))`. -/
def TargetSchema.requiredFields (t : TargetSchema) : Finset String :=
  (get_required_fields t.typeHints).toFinset

/-! ### BaseModelMapper (`py_transmuter/pydantic/mapper.py`)

The target model class itself is an external collaborator: it is carried as
its schema (for validation) together with a `construct` function modelling
`TargetModel(**resolved_map)`, which performs pydantic's own validation and
may fail. -/

structure BaseModelMapper where
  mapping : Option (List (String × MappingField))
  target : TargetSchema
  construct : Record → Option Record

namespace BaseModelMapper

/-- `BaseModelMapper.resolve_field`: string ⇒ `getattr`; tuple ⇒ `fn`
applied to the source field; callable ⇒ applied to the whole model. -/
def resolve_field (external_model : Record) : MappingField → Option Int
  | .direct name => lookupField external_model name
  | .tupleMap src fn => (lookupField external_model src).map fn
  | .callableMap fn => some (fn external_model)

/-- `BaseModelMapper.map`: resolve every mapping entry, then construct the
target model from the resolved dictionary. -/
def map (m : BaseModelMapper) (data : Record) : Option Record :=
  match m.mapping with
  | none => none
  | some mp =>
    match
      optionMapList
        (fun (p : String × MappingField) =>
          (resolve_field data p.2).map (fun v => (p.1, v)))
        mp
    with
    | none => none
    | some resolved_map => m.construct resolved_map

/-- `BaseModelMapper.map_list`: `[self.map(item) for item in data]`. -/
def map_list (m : BaseModelMapper) (data : List Record) : Option (List Record) :=
  optionMapList m.map data

/-- `BaseModelMapper.assert_is_valid_mapper`: `mapping` must be present,
must cover every required target field, and must not name unknown fields. -/
def assert_is_valid_mapper (m : BaseModelMapper) : Except AggConfigError Unit :=
  match m.mapping with
  | none => .error .noInstructions
  | some mp =>
    let required_fields := m.target.requiredFields
    let defined_mappings := (mp.map Prod.fst).toFinset
    let missing_required := required_fields \ defined_mappings
    if missing_required ≠ ∅ then
      .error (.missingRequired missing_required m.target.name)
    else
      let all_fields := m.target.allFields
      let extra_fields := defined_mappings \ all_fields
      if extra_fields ≠ ∅ then
        .error (.extraFields extra_fields m.target.name)
      else
        .ok ()

end BaseModelMapper

/-! ### BaseModelAggregator (`py_transmuter/pydantic_mapping/aggregator.py`) -/

structure BaseModelAggregator where
  group_by : Option (List Selector)
  sort_by : Option (List Selector)
  mappings : Option (List (String × MappingField))
  aggregations : Option (List (String × Aggregation))
  target : TargetSchema
  construct : OutRecord → Option Record

namespace BaseModelAggregator

/-- The pipeline fields shared with the dictionary variant; the two classes'
`sort_data`/`group_data`/`resolve_*` bodies are line-for-line identical
(modulo `getattr` versus `[]`, both a fallible field lookup). -/
def toDictionaryAggregator (agg : BaseModelAggregator) : DictionaryAggregator :=
  ⟨agg.group_by, agg.sort_by, agg.mappings, agg.aggregations⟩

/-- `BaseModelAggregator.resolve_mapping`. -/
def resolve_mapping (mapping_field : MappingField) (external_model : Record) : Option Int :=
  match mapping_field with
  | .direct name => lookupField external_model name
  | .tupleMap src fn => (lookupField external_model src).map fn
  | .callableMap fn => some (fn external_model)

/-- `BaseModelAggregator.resolve_aggregation`. -/
def resolve_aggregation (aggregation : Aggregation) (group : List Record) : Option Int :=
  match aggregation with
  | .tupleAgg src fn => (optionMapList (fun item => lookupField item src) group).map fn
  | .callableAgg fn => some (fn group)

/-- `BaseModelAggregator.resolve_group_objects`. -/
def resolve_group_objects (agg : BaseModelAggregator) (group : List Record) :
    Option OutRecord :=
  match
    (match agg.aggregations with
     | none => some []
     | some aggs =>
       optionMapList
         (fun (p : String × Aggregation) =>
           (resolve_aggregation p.2 group).map (fun v => (p.1, OutVal.single v)))
         aggs)
  with
  | none => none
  | some aggregated_fields =>
    match
      (match agg.mappings with
       | none => some []
       | some maps =>
         optionMapList
           (fun (p : String × MappingField) =>
             (optionMapList (fun item => resolve_mapping p.2 item) group).map
               (fun vs => (p.1, OutVal.vlist vs)))
           maps)
    with
    | none => none
    | some mapped_fields => some (dictMerge aggregated_fields mapped_fields)

/-- `BaseModelAggregator.sort_data`. -/
def sort_data (agg : BaseModelAggregator) (data : List Record) : Option (List Record) :=
  match agg.sort_by with
  | none => none
  | some sel =>
    match optionMapList (fun item => (keyTuple sel item).map (fun k => (item, k))) data with
    | none => none
    | some keyed =>
      some ((keyed.mergeSort (fun p q => lexLe p.2 q.2)).map Prod.fst)

/-- Lines 98–99 of `aggregate`: sort only when `sort_by` is configured. -/
def sortPhase (agg : BaseModelAggregator) (data : List Record) : Option (List Record) :=
  match agg.sort_by with
  | none => some data
  | some _ => agg.sort_data data

/-- `BaseModelAggregator.group_data`. -/
def group_data (agg : BaseModelAggregator) (data : List Record) :
    Option (List (List Record)) :=
  match agg.group_by with
  | none => none
  | some sel =>
    match optionMapList (fun item => (keyTuple sel item).map (fun k => (k, item))) data with
    | none => none
    | some keyed => some ((DictionaryAggregator.groupFold [] keyed).map Prod.snd)

/-- `BaseModelAggregator.aggregate`: sort, group, resolve each group, then
construct one target model per resolved group object. -/
def aggregate (agg : BaseModelAggregator) (data : List Record) :
    Option (List Record) :=
  match agg.sortPhase data with
  | none => none
  | some data1 =>
    match
      (match agg.group_by with
       | none => some [data1]
       | some _ => agg.group_data data1)
    with
    | none => none
    | some groups =>
      match optionMapList agg.resolve_group_objects groups with
      | none => none
      | some resolved_objects => optionMapList agg.construct resolved_objects

/-- `BaseModelAggregator.assert_is_valid_aggregator`: presence, key
disjointness, required coverage, and no unknown fields — in that order. -/
def assert_is_valid_aggregator (agg : BaseModelAggregator) :
    Except AggConfigError Unit :=
  if agg.aggregations.isNone ∧ agg.mappings.isNone then
    .error .noInstructions
  else
    let defined_aggregations := DictionaryAggregator.definedKeys agg.aggregations
    let defined_mappings := DictionaryAggregator.definedKeys agg.mappings
    let double_definitions := defined_mappings ∩ defined_aggregations
    if double_definitions ≠ ∅ then
      .error (.doubleDefinitions double_definitions)
    else
      let all_defined_fields := defined_aggregations ∪ defined_mappings
      let required_fields := agg.target.requiredFields
      let missing_required := required_fields \ all_defined_fields
      if missing_required ≠ ∅ then
        .error (.missingRequired missing_required agg.target.name)
      else
        let all_fields := agg.target.allFields
        let extra_fields := all_defined_fields \ all_fields
        if extra_fields ≠ ∅ then
          .error (.extraFields extra_fields agg.target.name)
        else
          .ok ()

theorem sort_data_eq_dict (agg : BaseModelAggregator) :
    agg.sort_data = agg.toDictionaryAggregator.sort_data := rfl

theorem sortPhase_eq_dict (agg : BaseModelAggregator) :
    agg.sortPhase = agg.toDictionaryAggregator.sortPhase := rfl

theorem group_data_eq_dict (agg : BaseModelAggregator) :
    agg.group_data = agg.toDictionaryAggregator.group_data := rfl

theorem resolve_mapping_eq_dict :
    BaseModelAggregator.resolve_mapping = DictionaryAggregator.resolve_mapping := by
  funext mf r
  cases mf <;> rfl

theorem resolve_aggregation_eq_dict :
    BaseModelAggregator.resolve_aggregation = DictionaryAggregator.resolve_aggregation := by
  funext a g
  cases a <;> rfl

theorem resolve_group_objects_eq_dict (agg : BaseModelAggregator) :
    agg.resolve_group_objects = agg.toDictionaryAggregator.resolve_group_objects := by
  funext group
  unfold resolve_group_objects DictionaryAggregator.resolve_group_objects
  rw [resolve_mapping_eq_dict, resolve_aggregation_eq_dict]
  rfl

/-- The pydantic `aggregate` is the dictionary pipeline followed by
per-group target-model construction. -/
theorem aggregate_eq_dict (agg : BaseModelAggregator) (data : List Record) :
    agg.aggregate data =
      match agg.toDictionaryAggregator.aggregate data with
      | none => none
      | some objs => optionMapList agg.construct objs := by
  unfold aggregate DictionaryAggregator.aggregate
  rw [sortPhase_eq_dict, group_data_eq_dict, resolve_group_objects_eq_dict]
  have hg : agg.group_by = agg.toDictionaryAggregator.group_by := rfl
  rw [hg]
  cases agg.toDictionaryAggregator.sortPhase data with
  | none => rfl
  | some data1 =>
    cases hgb : agg.toDictionaryAggregator.group_by with
    | none =>
      cases hro : optionMapList agg.toDictionaryAggregator.resolve_group_objects [data1] with
      | none => simp [hro]
      | some objs => simp [hro]
    | some sel =>
      cases hgd : agg.toDictionaryAggregator.group_data data1 with
      | none => simp [hgd]
      | some groups =>
        cases hro : optionMapList agg.toDictionaryAggregator.resolve_group_objects groups with
        | none => simp [hgd, hro]
        | some objs => simp [hgd, hro]

end BaseModelAggregator

/-! ### SelfInspector (`self_inspector.py`)

A callable handed to the binder is a plain function object, a
`classmethod` wrapper, or a `staticmethod` wrapper, each identified by its
underlying function object (a `Nat` id).  A class is described by the ids of
the functions it defines in each flavour.

`inspect.getmembers(cls, inspect.isfunction)` sees plain instance methods
and — because attribute access on the class unwraps `staticmethod` — the
underlying functions of static methods; `inspect.getmembers(cls,
inspect.ismethod)` sees the bound methods of `classmethod` attributes. -/

inductive PyCallable where
  | func (id : Nat)
  | classMethodObj (id : Nat)
  | staticMethodObj (id : Nat)
deriving DecidableEq

/-- `c.__func__` for the wrappers; a plain function is its own function. -/
def PyCallable.funcId : PyCallable → Nat
  | .func id => id
  | .classMethodObj id => id
  | .staticMethodObj id => id

structure PyClass where
  instanceMethods : List Nat
  classMethods : List Nat
  staticMethods : List Nat

namespace PyClass

/-- `[f for _, f in inspect.getmembers(cls, inspect.isfunction)]`. -/
def functions (C : PyClass) : List Nat := C.instanceMethods ++ C.staticMethods

/-- `[m.__func__ for _, m in inspect.getmembers(cls, inspect.ismethod)]`. -/
def methods (C : PyClass) : List Nat := C.classMethods

/-- `SelfInspector.is_instance_method`: `callable in functions` — only a
plain function object can compare equal to a member of that list. -/
def is_instance_method (C : PyClass) : PyCallable → Bool
  | .func id => C.functions.contains id
  | _ => false

/-- `SelfInspector.is_class_method`:
`isinstance(callable, classmethod) and callable.__func__ in methods`. -/
def is_class_method (C : PyClass) : PyCallable → Bool
  | .classMethodObj id => C.methods.contains id
  | _ => false

/-- `SelfInspector.is_static_method`:
`isinstance(callable, staticmethod) and callable.__func__ in functions`. -/
def is_static_method (C : PyClass) : PyCallable → Bool
  | .staticMethodObj id => C.functions.contains id
  | _ => false

end PyClass

/-- The invocation-ready forms `resolve_callable` can return. -/
inductive ResolvedCallable where
  | curriedSelf (c : PyCallable)
  | curriedCls (id : Nat)
  | underlying (id : Nat)
  | unchanged (c : PyCallable)
deriving DecidableEq

/-- `SelfInspector.resolve_callable`: instance-method check first, then
class-method, then static-method, else return the callable unchanged. -/
def resolve_callable (C : PyClass) (c : PyCallable) : ResolvedCallable :=
  if C.is_instance_method c then .curriedSelf c
  else if C.is_class_method c then .curriedCls c.funcId
  else if C.is_static_method c then .underlying c.funcId
  else .unchanged c

/-! ### Caller-list frame model for `aggregate`

Python lists live on a heap and are passed by reference.  `Heap` is the
store of list objects; `sorted(data, key=...)` reads its argument and
allocates a fresh list (it never sorts in place), and `data = ...` rebinds
the local name only.  `aggregateWithHeap` mirrors the body of
`DictionaryAggregator.aggregate` statement by statement over this store. -/

abbrev Heap := List (List Record)

/-- Allocate a fresh list object, returning the extended heap and its ref. -/
def heapAlloc (h : Heap) (v : List Record) : Heap × Nat := (h ++ [v], h.length)

/-- Dereference a list object. -/
def heapRead (h : Heap) (r : Nat) : List Record := (h[r]?).getD []

/-- `self.sort_data(data)` on the heap: `sorted` reads the referenced list
and allocates a new one; the argument list object is untouched. -/
def DictionaryAggregator.sort_data_heap (agg : DictionaryAggregator) (h : Heap)
    (r : Nat) : Option (Heap × Nat) :=
  match agg.sort_data (heapRead h r) with
  | none => none
  | some sortedList => some (heapAlloc h sortedList)

/-- `DictionaryAggregator.aggregate` over the heap: the caller passes a
reference `r` to its list; the local `data` is rebound to the freshly
allocated sorted list when `sort_by` is configured. -/
def DictionaryAggregator.aggregateWithHeap (agg : DictionaryAggregator) (h : Heap)
    (r : Nat) : Option (Heap × List OutRecord) :=
  match
    (match agg.sort_by with
     | none => some (h, r)
     | some _ => agg.sort_data_heap h r)
  with
  | none => none
  | some (h1, r1) =>
    let data1 := heapRead h1 r1
    match
      (match agg.group_by with
       | none => some [data1]
       | some _ => agg.group_data data1)
    with
    | none => none
    | some groups =>
      match optionMapList agg.resolve_group_objects groups with
      | none => none
      | some resolved => some (h1, resolved)

/-! ## Supporting lemmas -/

theorem optionMapList_singleton (f : α → Option β) (x : α) :
    optionMapList f [x] = (f x).map (fun y => [y]) := by
  rw [optionMapList_cons]
  cases f x <;> rfl

theorem DictionaryAggregator.sortPhase_nil (agg : DictionaryAggregator) :
    agg.sortPhase [] = some [] := by
  unfold sortPhase sort_data
  cases agg.sort_by with
  | none => rfl
  | some sel => simp [optionMapList]

theorem DictionaryAggregator.group_data_nil (agg : DictionaryAggregator)
    (sel : List Selector) (h : agg.group_by = some sel) :
    agg.group_data [] = some [] := by
  unfold group_data
  rw [h]
  rfl

/-- Example configurations used by the concrete witnesses below. -/
def exampleUngrouped : DictionaryAggregator :=
  ⟨none, none, some [("ids", MappingField.direct "id")], none⟩

def exampleGrouped : DictionaryAggregator :=
  ⟨some [Selector.field "parent"], none, some [("ids", MappingField.direct "id")], none⟩

def exampleSchema : TargetSchema :=
  ⟨"B", [("ids", PyType.atom (PyTypeAtom.plain "list")),
         ("opt", PyType.typingUnion [PyTypeAtom.plain "int", PyTypeAtom.noneType])]⟩

def examplePGrouped : BaseModelAggregator :=
  ⟨some [Selector.field "parent"], none, some [("ids", MappingField.direct "id")], none,
   exampleSchema, fun _ => some []⟩

def examplePUngrouped : BaseModelAggregator :=
  ⟨none, none, some [("ids", MappingField.direct "id")], none,
   exampleSchema, fun _ => some []⟩

/-! ## C1 -/

/-- C1 counterexample: the dictionary aggregator `{mappings: {"ids": "id"}}`
with no `group_by` applied to the empty input yields ONE output record
(the resolution of the single implicit empty group), not an empty output
collection as the claim states for every configuration. -/
theorem C1_counterexample :
    exampleUngrouped.aggregate [] = some [[("ids", OutVal.vlist [])]] ∧
    some [[("ids", OutVal.vlist [])]] ≠ some ([] : List OutRecord) := by
  refine ⟨rfl, ?_⟩
  intro h
  simp at h

/-- C1 (amended): with `group_by` configured, an empty input produces zero
groups and hence an empty output, in both aggregator variants; without
`group_by`, the empty input forms one implicit empty group, so the output is
the resolution of that single group (one record), not the empty collection. -/
theorem C1_empty_input (agg : DictionaryAggregator) (aggP : BaseModelAggregator) :
    (∀ sel, agg.group_by = some sel → agg.aggregate [] = some []) ∧
    (agg.group_by = none →
      agg.aggregate [] = (agg.resolve_group_objects []).map (fun o => [o])) ∧
    (∀ sel, aggP.group_by = some sel → aggP.aggregate [] = some []) ∧
    (aggP.group_by = none →
      aggP.aggregate [] =
        match aggP.resolve_group_objects [] with
        | none => none
        | some o => (aggP.construct o).map (fun t => [t])) := by
  have hdict : ∀ (a : DictionaryAggregator),
      a.aggregate [] =
        match (match a.group_by with
               | none => some [([] : List Record)]
               | some _ => a.group_data []) with
        | none => none
        | some groups => optionMapList a.resolve_group_objects groups := by
    intro a
    unfold DictionaryAggregator.aggregate
    rw [a.sortPhase_nil]
  refine ⟨?_, ?_, ?_, ?_⟩
  · intro sel hsel
    rw [hdict, hsel, agg.group_data_nil sel hsel]
    rfl
  · intro hnone
    rw [hdict, hnone]
    show optionMapList agg.resolve_group_objects [[]] = _
    rw [optionMapList_singleton]
  · intro sel hsel
    rw [BaseModelAggregator.aggregate_eq_dict, hdict]
    have hsel' : aggP.toDictionaryAggregator.group_by = some sel := hsel
    rw [hsel', DictionaryAggregator.group_data_nil _ sel hsel']
    rfl
  · intro hnone
    rw [BaseModelAggregator.aggregate_eq_dict, hdict]
    have hgb : aggP.toDictionaryAggregator.group_by = none := hnone
    rw [hgb]
    show (match optionMapList aggP.toDictionaryAggregator.resolve_group_objects [[]] with
          | none => none
          | some objs => optionMapList aggP.construct objs) = _
    rw [← BaseModelAggregator.resolve_group_objects_eq_dict, optionMapList_singleton]
    cases hro : aggP.resolve_group_objects [] with
    | none => rfl
    | some o =>
      show optionMapList aggP.construct [o] = _
      rw [optionMapList_singleton]

/-- C1 witness: the amended theorem applied at concrete configurations. -/
theorem C1_witness :
    exampleGrouped.aggregate [] = some [] ∧
    examplePGrouped.aggregate [] = some [] ∧
    exampleUngrouped.aggregate [] =
      (exampleUngrouped.resolve_group_objects []).map (fun o => [o]) := by
  refine ⟨?_, ?_, ?_⟩
  · exact (C1_empty_input exampleGrouped examplePGrouped).1 [Selector.field "parent"] rfl
  · exact (C1_empty_input exampleGrouped examplePGrouped).2.2.1 [Selector.field "parent"] rfl
  · exact (C1_empty_input exampleUngrouped examplePUngrouped).2.1 rfl

/-! ## C2 / C3: construction-time validation -/

/-- The shared missing-then-extra check both pydantic validators end with. -/
def coverageCheck (required D allF : Finset String) (modelName : String) :
    Except AggConfigError Unit :=
  if required \ D ≠ ∅ then .error (.missingRequired (required \ D) modelName)
  else if D \ allF ≠ ∅ then .error (.extraFields (D \ allF) modelName)
  else .ok ()

theorem coverageCheck_ok_iff {required D allF : Finset String} {modelName : String} :
    coverageCheck required D allF modelName = .ok () ↔ required ⊆ D ∧ D ⊆ allF := by
  unfold coverageCheck
  by_cases h1 : required \ D = ∅
  · by_cases h2 : D \ allF = ∅
    · simp [h1, h2, Finset.sdiff_eq_empty_iff_subset.mp h1,
        Finset.sdiff_eq_empty_iff_subset.mp h2]
    · rw [if_neg (by simpa using h1), if_pos h2]
      constructor
      · intro h; cases h
      · rintro ⟨-, hsub⟩
        exact absurd (Finset.sdiff_eq_empty_iff_subset.mpr hsub) h2
  · rw [if_pos h1]
    constructor
    · intro h; cases h
    · rintro ⟨hsub, -⟩
      exact absurd (Finset.sdiff_eq_empty_iff_subset.mpr hsub) h1

theorem coverageCheck_missing {required D allF : Finset String} {modelName : String}
    (h : ¬ required ⊆ D) :
    coverageCheck required D allF modelName =
      .error (.missingRequired (required \ D) modelName) := by
  unfold coverageCheck
  rw [if_pos]
  intro hempty
  exact h (Finset.sdiff_eq_empty_iff_subset.mp hempty)

theorem coverageCheck_extra {required D allF : Finset String} {modelName : String}
    (h1 : required ⊆ D) (h2 : ¬ D ⊆ allF) :
    coverageCheck required D allF modelName =
      .error (.extraFields (D \ allF) modelName) := by
  unfold coverageCheck
  rw [if_neg, if_pos]
  · intro hempty
    exact h2 (Finset.sdiff_eq_empty_iff_subset.mp hempty)
  · intro hne
    exact hne (Finset.sdiff_eq_empty_iff_subset.mpr h1)

/-- With instructions present and key sets disjoint, the pydantic
aggregator validator reduces to the coverage check over the union. -/
theorem BaseModelAggregator.aggregator_assert_eq_coverage (agg : BaseModelAggregator)
    (hpres : ¬(agg.aggregations.isNone ∧ agg.mappings.isNone))
    (hdisj : DictionaryAggregator.definedKeys agg.mappings ∩
      DictionaryAggregator.definedKeys agg.aggregations = ∅) :
    agg.assert_is_valid_aggregator =
      coverageCheck agg.target.requiredFields
        (DictionaryAggregator.definedKeys agg.aggregations ∪
          DictionaryAggregator.definedKeys agg.mappings)
        agg.target.allFields agg.target.name := by
  unfold assert_is_valid_aggregator
  rw [if_neg hpres]
  dsimp only
  rw [hdisj, if_neg (by simp)]
  rfl

/-- With `mapping` present, the pydantic mapper validator reduces to the
coverage check over its key set. -/
theorem BaseModelMapper.mapper_assert_eq_coverage (m : BaseModelMapper)
    (mp : List (String × MappingField)) (h : m.mapping = some mp) :
    m.assert_is_valid_mapper =
      coverageCheck m.target.requiredFields ((mp.map Prod.fst).toFinset)
        m.target.allFields m.target.name := by
  unfold assert_is_valid_mapper
  rw [h]
  rfl

/-- C2: for a present (and, for the aggregator, key-disjoint) configuration,
construction succeeds iff the declared field set `D` satisfies
`required ⊆ D ⊆ all`; on failure the error carries the offending names:
`required − D` when coverage is missing, else `D − all`. -/
theorem C2_coverage_law (agg : BaseModelAggregator) (m : BaseModelMapper) :
    (¬(agg.aggregations.isNone ∧ agg.mappings.isNone) →
      DictionaryAggregator.definedKeys agg.mappings ∩
        DictionaryAggregator.definedKeys agg.aggregations = ∅ →
      ((agg.assert_is_valid_aggregator = .ok () ↔
          agg.target.requiredFields ⊆
            (DictionaryAggregator.definedKeys agg.aggregations ∪
              DictionaryAggregator.definedKeys agg.mappings) ∧
          (DictionaryAggregator.definedKeys agg.aggregations ∪
            DictionaryAggregator.definedKeys agg.mappings) ⊆ agg.target.allFields) ∧
        (¬ agg.target.requiredFields ⊆
            (DictionaryAggregator.definedKeys agg.aggregations ∪
              DictionaryAggregator.definedKeys agg.mappings) →
          agg.assert_is_valid_aggregator =
            .error (.missingRequired
              (agg.target.requiredFields \
                (DictionaryAggregator.definedKeys agg.aggregations ∪
                  DictionaryAggregator.definedKeys agg.mappings)) agg.target.name)) ∧
        (agg.target.requiredFields ⊆
            (DictionaryAggregator.definedKeys agg.aggregations ∪
              DictionaryAggregator.definedKeys agg.mappings) →
          ¬ (DictionaryAggregator.definedKeys agg.aggregations ∪
              DictionaryAggregator.definedKeys agg.mappings) ⊆ agg.target.allFields →
          agg.assert_is_valid_aggregator =
            .error (.extraFields
              ((DictionaryAggregator.definedKeys agg.aggregations ∪
                DictionaryAggregator.definedKeys agg.mappings) \ agg.target.allFields)
              agg.target.name)))) ∧
    (∀ mp, m.mapping = some mp →
      ((m.assert_is_valid_mapper = .ok () ↔
          m.target.requiredFields ⊆ (mp.map Prod.fst).toFinset ∧
          (mp.map Prod.fst).toFinset ⊆ m.target.allFields) ∧
        (¬ m.target.requiredFields ⊆ (mp.map Prod.fst).toFinset →
          m.assert_is_valid_mapper =
            .error (.missingRequired
              (m.target.requiredFields \ (mp.map Prod.fst).toFinset) m.target.name)) ∧
        (m.target.requiredFields ⊆ (mp.map Prod.fst).toFinset →
          ¬ (mp.map Prod.fst).toFinset ⊆ m.target.allFields →
          m.assert_is_valid_mapper =
            .error (.extraFields
              ((mp.map Prod.fst).toFinset \ m.target.allFields) m.target.name)))) := by
  constructor
  · intro hpres hdisj
    rw [agg.aggregator_assert_eq_coverage hpres hdisj]
    exact ⟨coverageCheck_ok_iff,
      fun h => coverageCheck_missing h,
      fun h1 h2 => coverageCheck_extra h1 h2⟩
  · intro mp hmp
    rw [m.mapper_assert_eq_coverage mp hmp]
    exact ⟨coverageCheck_ok_iff,
      fun h => coverageCheck_missing h,
      fun h1 h2 => coverageCheck_extra h1 h2⟩

/-- Example pydantic mapper used by witnesses. -/
def exampleMapper : BaseModelMapper :=
  ⟨some [("ids", MappingField.direct "id")], exampleSchema, fun r => some r⟩

/-- C2 witness: a concrete valid aggregator and mapper over a schema with
required field `ids` and optional field `opt`. -/
theorem C2_witness :
    examplePGrouped.assert_is_valid_aggregator = .ok () ∧
    exampleMapper.assert_is_valid_mapper = .ok () := by
  constructor
  · exact ((C2_coverage_law examplePGrouped exampleMapper).1
      (by intro h; exact absurd h.2 (by simp [examplePGrouped]))
      (by decide)).1.mpr ⟨by decide, by decide⟩
  · exact ((C2_coverage_law examplePGrouped exampleMapper).2
      [("ids", MappingField.direct "id")] rfl).1.mpr ⟨by decide, by decide⟩

/-- C3: whenever the mappings and aggregations key sets intersect,
construction fails — in both aggregator variants — with the
double-definition error carrying exactly the overlapping key set. -/
theorem C3_overlap_rejected (agg : DictionaryAggregator) (aggP : BaseModelAggregator) :
    (DictionaryAggregator.definedKeys agg.mappings ∩
        DictionaryAggregator.definedKeys agg.aggregations ≠ ∅ →
      agg.assert_is_valid_aggregator =
        .error (.doubleDefinitions
          (DictionaryAggregator.definedKeys agg.mappings ∩
            DictionaryAggregator.definedKeys agg.aggregations)) ∧
      agg.assert_is_valid_aggregator ≠ .ok ()) ∧
    (DictionaryAggregator.definedKeys aggP.mappings ∩
        DictionaryAggregator.definedKeys aggP.aggregations ≠ ∅ →
      aggP.assert_is_valid_aggregator =
        .error (.doubleDefinitions
          (DictionaryAggregator.definedKeys aggP.mappings ∩
            DictionaryAggregator.definedKeys aggP.aggregations)) ∧
      aggP.assert_is_valid_aggregator ≠ .ok ()) := by
  have hpres : ∀ (om : Option (List (String × MappingField)))
      (oa : Option (List (String × Aggregation))),
      DictionaryAggregator.definedKeys om ∩ DictionaryAggregator.definedKeys oa ≠ ∅ →
      ¬(oa.isNone ∧ om.isNone) := by
    rintro om oa hne ⟨ha, hm⟩
    cases om with
    | none => exact hne (by simp [DictionaryAggregator.definedKeys])
    | some l => simp at hm
  constructor
  · intro hne
    have herr : agg.assert_is_valid_aggregator =
        .error (.doubleDefinitions
          (DictionaryAggregator.definedKeys agg.mappings ∩
            DictionaryAggregator.definedKeys agg.aggregations)) := by
      unfold DictionaryAggregator.assert_is_valid_aggregator
      rw [if_neg (hpres _ _ hne)]
      dsimp only
      rw [if_pos hne]
    exact ⟨herr, by rw [herr]; intro h; cases h⟩
  · intro hne
    have herr : aggP.assert_is_valid_aggregator =
        .error (.doubleDefinitions
          (DictionaryAggregator.definedKeys aggP.mappings ∩
            DictionaryAggregator.definedKeys aggP.aggregations)) := by
      unfold BaseModelAggregator.assert_is_valid_aggregator
      rw [if_neg (hpres _ _ hne)]
      dsimp only
      rw [if_pos hne]
    exact ⟨herr, by rw [herr]; intro h; cases h⟩

/-- Overlapping example configurations for the C3 witness. -/
def exampleOverlap : DictionaryAggregator :=
  ⟨none, none, some [("x", MappingField.direct "a")],
   some [("x", Aggregation.callableAgg (fun g => g.length))]⟩

def examplePOverlap : BaseModelAggregator :=
  ⟨none, none, some [("x", MappingField.direct "a")],
   some [("x", Aggregation.callableAgg (fun g => g.length))],
   exampleSchema, fun _ => some []⟩

/-- C3 witness: the overlap theorem applied at configurations whose
mappings and aggregations both own the key `x`. -/
theorem C3_witness :
    exampleOverlap.assert_is_valid_aggregator =
      .error (.doubleDefinitions
        (DictionaryAggregator.definedKeys exampleOverlap.mappings ∩
          DictionaryAggregator.definedKeys exampleOverlap.aggregations)) ∧
    examplePOverlap.assert_is_valid_aggregator ≠ .ok () := by
  constructor
  · exact ((C3_overlap_rejected exampleOverlap examplePOverlap).1 (by decide)).1
  · exact ((C3_overlap_rejected exampleOverlap examplePOverlap).2 (by decide)).2

/-! ## C4: map_list cardinality and order -/

/-- Example dictionary mapper for witnesses. -/
def exampleDictMapper : DictionaryMapper := ⟨some [("out", MappingField.direct "id")]⟩

/-- C4: a successful `map_list` returns exactly one output per input, in
order: the output length equals the input length and the `i`-th output is
`map` of the `i`-th input — for both mapper variants. -/
theorem C4_map_list (m : DictionaryMapper) (mP : BaseModelMapper) :
    (∀ (xs ys : List Record), m.map_list xs = some ys →
      ys.length = xs.length ∧
      ∀ (i : Nat) (hx : i < xs.length) (hy : i < ys.length),
        m.map (xs.get ⟨i, hx⟩) = some (ys.get ⟨i, hy⟩)) ∧
    (∀ (xs ys : List Record), mP.map_list xs = some ys →
      ys.length = xs.length ∧
      ∀ (i : Nat) (hx : i < xs.length) (hy : i < ys.length),
        mP.map (xs.get ⟨i, hx⟩) = some (ys.get ⟨i, hy⟩)) := by
  constructor
  · intro xs ys h
    exact ⟨optionMapList_length h, fun i hx hy => optionMapList_get h i hx hy⟩
  · intro xs ys h
    exact ⟨optionMapList_length h, fun i hx hy => optionMapList_get h i hx hy⟩

/-- C4 witness: a two-record list maps to a two-record list whose entries
are the per-record `map` results. -/
theorem C4_witness :
    exampleDictMapper.map_list [[("id", 1)], [("id", 2)]] =
      some [[("out", 1)], [("out", 2)]] ∧
    ([[("out", 1)], [("out", 2)]] : List Record).length =
      ([[("id", 1)], [("id", 2)]] : List Record).length := by
  have h : exampleDictMapper.map_list [[("id", 1)], [("id", 2)]] =
      some [[("out", 1)], [("out", 2)]] := rfl
  exact ⟨h, ((C4_map_list exampleDictMapper exampleMapper).1 _ _ h).1⟩

/-! ## C9: missing-key failure and whole-call propagation -/

/-- C9: resolving a bare field name against a record lacking it fails
(`KeyError`), in the mapper and in the aggregator's `resolve_mapping`; and
failure is total — if `map` fails on any member, `map_list` is `none`, and
if any produced group fails to resolve, `aggregate` is `none` (no partial
output). -/
theorem C9_failure_propagation (mapper : DictionaryMapper) (agg : DictionaryAggregator) :
    (∀ (r : Record) (name : String), lookupField r name = none →
      DictionaryMapper.resolve_field r (MappingField.direct name) = none) ∧
    (∀ (r : Record) (name : String), lookupField r name = none →
      DictionaryAggregator.resolve_mapping (MappingField.direct name) r = none) ∧
    (∀ (xs : List Record) (x : Record), x ∈ xs → mapper.map x = none →
      mapper.map_list xs = none) ∧
    (∀ (data data1 : List Record) (groups : List (List Record)) (g : List Record),
      agg.sortPhase data = some data1 →
      (match agg.group_by with
       | none => some [data1]
       | some _ => agg.group_data data1) = some groups →
      g ∈ groups →
      agg.resolve_group_objects g = none →
      agg.aggregate data = none) := by
  refine ⟨?_, ?_, ?_, ?_⟩
  · intro r name h
    simpa [DictionaryMapper.resolve_field] using h
  · intro r name h
    simpa [DictionaryAggregator.resolve_mapping] using h
  · intro xs x hmem hnone
    exact optionMapList_none_of_mem hmem hnone
  · intro data data1 groups g h1 h2 hmem hnone
    unfold DictionaryAggregator.aggregate
    rw [h1]
    show (match (match agg.group_by with
                 | none => some [data1]
                 | some _ => agg.group_data data1) with
          | none => none
          | some groups => optionMapList agg.resolve_group_objects groups) = none
    rw [h2]
    exact optionMapList_none_of_mem hmem hnone

/-- C9 witness: a record without the `id` key makes the single resolution,
the whole `map_list`, and the whole `aggregate` fail. -/
theorem C9_witness :
    DictionaryMapper.resolve_field [("nope", 2)] (MappingField.direct "id") = none ∧
    exampleDictMapper.map_list [[("id", 1)], [("nope", 2)]] = none ∧
    exampleUngrouped.aggregate [[("nope", 2)]] = none := by
  refine ⟨?_, ?_, ?_⟩
  · exact (C9_failure_propagation exampleDictMapper exampleUngrouped).1 [("nope", 2)] "id" rfl
  · exact (C9_failure_propagation exampleDictMapper exampleUngrouped).2.2.1
      [[("id", 1)], [("nope", 2)]] [("nope", 2)] (by simp) rfl
  · exact (C9_failure_propagation exampleDictMapper exampleUngrouped).2.2.2
      [[("nope", 2)]] [[("nope", 2)]] [[[("nope", 2)]]] [[("nope", 2)]]
      rfl rfl (by simp) rfl

/-! ## C5: per-group shape of mapped and aggregated fields -/

theorem optionMapList_mem {f : α → Option β} :
    ∀ {xs : List α} {ys : List β}, optionMapList f xs = some ys →
      ∀ {x : α}, x ∈ xs → ∃ y, f x = some y ∧ y ∈ ys := by
  intro xs
  induction xs with
  | nil => intro ys _ x hx; simp at hx
  | cons a xs ih =>
    intro ys h x hx
    rw [optionMapList_cons] at h
    cases ha : f a with
    | none => rw [ha] at h; simp at h
    | some y =>
      rw [ha] at h
      cases hxs : optionMapList f xs with
      | none => rw [hxs] at h; simp at h
      | some zs =>
        rw [hxs] at h
        simp at h
        subst h
        rcases List.mem_cons.mp hx with hx | hx
        · exact ⟨y, hx ▸ ha, List.mem_cons_self y zs⟩
        · obtain ⟨y', hy', hmem⟩ := ih hxs hx
          exact ⟨y', hy', List.mem_cons_of_mem y hmem⟩

theorem optionMapList_map_proj {f : α → Option β} (gmap : α → γ) (hmap : β → γ)
    (hf : ∀ x y, f x = some y → hmap y = gmap x) :
    ∀ {xs : List α} {ys : List β}, optionMapList f xs = some ys →
      ys.map hmap = xs.map gmap := by
  intro xs
  induction xs with
  | nil => intro ys h; rw [optionMapList_nil] at h; simp at h; simp [← h]
  | cons a xs ih =>
    intro ys h
    rw [optionMapList_cons] at h
    cases ha : f a with
    | none => rw [ha] at h; simp at h
    | some y =>
      rw [ha] at h
      cases hxs : optionMapList f xs with
      | none => rw [hxs] at h; simp at h
      | some zs =>
        rw [hxs] at h
        simp at h
        subst h
        simp [hf a y ha, ih hxs]

theorem lookupOut_eq_none_iff {l : OutRecord} {k : String} :
    lookupOut l k = none ↔ k ∉ l.map Prod.fst := by
  induction l with
  | nil => simp [lookupOut]
  | cons p rest ih =>
    simp only [lookupOut, List.map_cons, List.mem_cons]
    by_cases hk : p.1 = k
    · simp [hk]
    · rw [if_neg hk, ih]
      constructor
      · intro h
        rintro (h' | h')
        · exact hk h'.symm
        · exact h h'
      · intro h h'
        exact h (Or.inr h')

/-- Core of C5 for the dictionary pipeline: in a successful
`resolve_group_objects` with disjoint key sets, every mappings entry (when
`mappings` is present) yields a list of exactly the group's length whose
`i`-th element resolves the instruction against the `i`-th group member, and
every aggregations entry (when `aggregations` is present) yields a single
value — independently of each other, so aggregations-only and mappings-only
aggregators are both covered. -/
theorem resolve_group_objects_shape (agg : DictionaryAggregator) (g : List Record)
    (o : OutRecord)
    (hdisj : ∀ k, k ∈ DictionaryAggregator.definedKeys agg.mappings →
      k ∉ DictionaryAggregator.definedKeys agg.aggregations)
    (hres : agg.resolve_group_objects g = some o) :
    (∀ maps k mfield, agg.mappings = some maps → (k, mfield) ∈ maps →
      ∃ vs, (k, OutVal.vlist vs) ∈ o ∧ vs.length = g.length ∧
        ∀ (i : Nat) (hgi : i < g.length) (hv : i < vs.length),
          DictionaryAggregator.resolve_mapping mfield (g.get ⟨i, hgi⟩) =
            some (vs.get ⟨i, hv⟩)) ∧
    (∀ aggs k a, agg.aggregations = some aggs → (k, a) ∈ aggs →
      ∃ v, (k, OutVal.single v) ∈ o ∧
        DictionaryAggregator.resolve_aggregation a g = some v) := by
  unfold DictionaryAggregator.resolve_group_objects at hres
  cases hagg :
      (match agg.aggregations with
       | none => some []
       | some aggs =>
         optionMapList
           (fun (p : String × Aggregation) =>
             (DictionaryAggregator.resolve_aggregation p.2 g).map
               (fun v => (p.1, OutVal.single v)))
           aggs) with
  | none => rw [hagg] at hres; simp at hres
  | some aggregated_fields =>
    rw [hagg] at hres
    have hres' :
        (match
          (match agg.mappings with
           | none => some []
           | some maps =>
             optionMapList
               (fun (p : String × MappingField) =>
                 (optionMapList (fun item => DictionaryAggregator.resolve_mapping p.2 item) g).map
                   (fun vs => (p.1, OutVal.vlist vs)))
               maps)
        with
        | none => none
        | some mapped_fields => some (dictMerge aggregated_fields mapped_fields)) =
          some o := hres
    clear hres
    cases hmapM :
        (match agg.mappings with
         | none => some []
         | some maps =>
           optionMapList
             (fun (p : String × MappingField) =>
               (optionMapList (fun item => DictionaryAggregator.resolve_mapping p.2 item) g).map
                 (fun vs => (p.1, OutVal.vlist vs)))
             maps) with
    | none => rw [hmapM] at hres'; simp at hres'
    | some mapped_fields =>
      rw [hmapM] at hres'
      simp only [Option.some.injEq] at hres'
      have hmapKeys : ∀ p ∈ mapped_fields,
          p.1 ∈ DictionaryAggregator.definedKeys agg.mappings := by
        intro p hp
        cases hmaps : agg.mappings with
        | none =>
          rw [hmaps] at hmapM
          simp at hmapM
          rw [hmapM] at hp
          simp at hp
        | some maps =>
          rw [hmaps] at hmapM
          have hkeys : mapped_fields.map Prod.fst = maps.map Prod.fst := by
            apply optionMapList_map_proj Prod.fst Prod.fst _ hmapM
            intro q y hy
            cases hvs : optionMapList
                (fun item => DictionaryAggregator.resolve_mapping q.2 item) g with
            | none => rw [hvs] at hy; simp at hy
            | some vs => rw [hvs] at hy; simp at hy; rw [← hy]
          have hmem : p.1 ∈ maps.map Prod.fst := by
            rw [← hkeys]
            exact List.mem_map_of_mem Prod.fst hp
          simp [DictionaryAggregator.definedKeys, hmaps, hmem]
      have haggKeys : ∀ p ∈ aggregated_fields,
          p.1 ∈ DictionaryAggregator.definedKeys agg.aggregations := by
        intro p hp
        cases haggs : agg.aggregations with
        | none =>
          rw [haggs] at hagg
          simp at hagg
          rw [hagg] at hp
          simp at hp
        | some aggs =>
          rw [haggs] at hagg
          have hkeys : aggregated_fields.map Prod.fst = aggs.map Prod.fst := by
            apply optionMapList_map_proj Prod.fst Prod.fst _ hagg
            intro q y hy
            cases hv : DictionaryAggregator.resolve_aggregation q.2 g with
            | none => rw [hv] at hy; simp at hy
            | some v => rw [hv] at hy; simp at hy; rw [← hy]
          have hmem : p.1 ∈ aggs.map Prod.fst := by
            rw [← hkeys]
            exact List.mem_map_of_mem Prod.fst hp
          simp [DictionaryAggregator.definedKeys, haggs, hmem]
      have hmerge : dictMerge aggregated_fields mapped_fields =
          aggregated_fields ++ mapped_fields := by
        apply dictMerge_of_disjoint
        · intro p hp
          rw [lookupOut_eq_none_iff]
          intro hin
          obtain ⟨q, hq, hq1⟩ := List.mem_map.mp hin
          exact hdisj p.1 (hq1 ▸ hmapKeys q hq) (haggKeys p hp)
        · intro p hp
          rw [lookupOut_eq_none_iff]
          intro hin
          obtain ⟨q, hq, hq1⟩ := List.mem_map.mp hin
          exact hdisj p.1 (hmapKeys p hp) (hq1 ▸ haggKeys q hq)
      subst hres'
      constructor
      · intro maps k mfield hmaps hkm
        rw [hmaps] at hmapM
        have hmapped :
            optionMapList
              (fun (p : String × MappingField) =>
                (optionMapList (fun item => DictionaryAggregator.resolve_mapping p.2 item) g).map
                  (fun vs => (p.1, OutVal.vlist vs)))
              maps = some mapped_fields := hmapM
        obtain ⟨y, hy, hymem⟩ := optionMapList_mem hmapped hkm
        cases hvs : optionMapList
            (fun item => DictionaryAggregator.resolve_mapping mfield item) g with
        | none => rw [hvs] at hy; simp at hy
        | some vs =>
          rw [hvs] at hy
          simp at hy
          refine ⟨vs, ?_, optionMapList_length hvs, fun i hgi hv => optionMapList_get hvs i hgi hv⟩
          rw [hmerge]
          refine List.mem_append_right _ ?_
          rw [hy]
          exact hymem
      · intro aggs k a haggs hka
        rw [haggs] at hagg
        obtain ⟨y, hy, hymem⟩ := optionMapList_mem hagg hka
        cases hv : DictionaryAggregator.resolve_aggregation a g with
        | none => rw [hv] at hy; simp at hy
        | some v =>
          rw [hv] at hy
          simp at hy
          refine ⟨v, ?_, rfl⟩
          rw [hmerge]
          refine List.mem_append_left _ ?_
          rw [hy]
          exact hymem

/-- Pointwise form of key-set disjointness. -/
theorem disjoint_keys_pointwise {s t : Finset String} (h : s ∩ t = ∅) :
    ∀ k, k ∈ s → k ∉ t := by
  intro k h1 h2
  rw [Finset.eq_empty_iff_forall_not_mem] at h
  exact h k (Finset.mem_inter.mpr ⟨h1, h2⟩)

/-- C5: in any successful group resolution (with the construction-enforced
disjoint key sets), every mappings instruction of the configuration produces
for its target field a list whose length is the group's size, element `i`
being the instruction resolved against the `i`-th group member, and every
aggregations instruction produces a single value — each clause holding for
every aggregator, including mappings-only and aggregations-only ones, in
both variants; moreover sorting preserves length, so the ungrouped single
group has the whole-input length. -/
theorem C5_mapped_and_aggregated_shapes (agg : DictionaryAggregator)
    (aggP : BaseModelAggregator) :
    (∀ (g : List Record) (o : OutRecord),
      DictionaryAggregator.definedKeys agg.mappings ∩
        DictionaryAggregator.definedKeys agg.aggregations = ∅ →
      agg.resolve_group_objects g = some o →
      (∀ maps k mfield, agg.mappings = some maps → (k, mfield) ∈ maps →
        ∃ vs, (k, OutVal.vlist vs) ∈ o ∧ vs.length = g.length ∧
          ∀ (i : Nat) (hgi : i < g.length) (hv : i < vs.length),
            DictionaryAggregator.resolve_mapping mfield (g.get ⟨i, hgi⟩) =
              some (vs.get ⟨i, hv⟩)) ∧
      (∀ aggs k a, agg.aggregations = some aggs → (k, a) ∈ aggs →
        ∃ v, (k, OutVal.single v) ∈ o ∧
          DictionaryAggregator.resolve_aggregation a g = some v)) ∧
    (∀ (g : List Record) (o : OutRecord),
      DictionaryAggregator.definedKeys aggP.mappings ∩
        DictionaryAggregator.definedKeys aggP.aggregations = ∅ →
      aggP.resolve_group_objects g = some o →
      (∀ maps k mfield, aggP.mappings = some maps → (k, mfield) ∈ maps →
        ∃ vs, (k, OutVal.vlist vs) ∈ o ∧ vs.length = g.length ∧
          ∀ (i : Nat) (hgi : i < g.length) (hv : i < vs.length),
            BaseModelAggregator.resolve_mapping mfield (g.get ⟨i, hgi⟩) =
              some (vs.get ⟨i, hv⟩)) ∧
      (∀ aggs k a, aggP.aggregations = some aggs → (k, a) ∈ aggs →
        ∃ v, (k, OutVal.single v) ∈ o ∧
          BaseModelAggregator.resolve_aggregation a g = some v)) ∧
    (∀ (data out : List Record), agg.sort_data data = some out →
      out.length = data.length) := by
  refine ⟨?_, ?_, ?_⟩
  · intro g o hdisj hres
    exact resolve_group_objects_shape agg g o
      (disjoint_keys_pointwise hdisj) hres
  · intro g o hdisj hres
    rw [BaseModelAggregator.resolve_group_objects_eq_dict] at hres
    rw [BaseModelAggregator.resolve_mapping_eq_dict,
      BaseModelAggregator.resolve_aggregation_eq_dict]
    exact resolve_group_objects_shape aggP.toDictionaryAggregator g o
      (disjoint_keys_pointwise hdisj) hres
  · intro data out hsort
    unfold DictionaryAggregator.sort_data at hsort
    cases hsel : agg.sort_by with
    | none => rw [hsel] at hsort; simp at hsort
    | some sel =>
      rw [hsel] at hsort
      have hsort' :
          (match optionMapList (fun item => (keyTuple sel item).map (fun k => (item, k))) data with
           | none => none
           | some keyed =>
             some ((keyed.mergeSort (fun p q => lexLe p.2 q.2)).map Prod.fst)) =
            some out := hsort
      clear hsort
      cases hkeyed : optionMapList
          (fun item => (keyTuple sel item).map (fun k => (item, k))) data with
      | none => rw [hkeyed] at hsort'; simp at hsort'
      | some keyed =>
        rw [hkeyed] at hsort'
        simp only [Option.some.injEq] at hsort'
        rw [← hsort']
        rw [List.length_map]
        calc (keyed.mergeSort (fun p q => lexLe p.2 q.2)).length
            = keyed.length := (List.mergeSort_perm keyed _).length_eq
          _ = data.length := optionMapList_length hkeyed

/-- Mixed mappings-and-aggregations example for the C5 witness. -/
def exampleMix : DictionaryAggregator :=
  ⟨none, none, some [("vs", MappingField.direct "v")],
   some [("sum", Aggregation.tupleAgg "v" (fun vals => vals.sum))]⟩

/-- Aggregations-only example (spec Scenario 4) for the C5 witness. -/
def exampleAggOnly : DictionaryAggregator :=
  ⟨none, none, none, some [("sum", Aggregation.tupleAgg "v" (fun vals => vals.sum))]⟩

/-- C5 witness: on the two-record group of the mixed configuration, the
mapped field `vs` carries a 2-element list and the aggregated field `sum` a
single value; and on an aggregations-only configuration (no `mappings` at
all) the aggregated field still yields its single value. -/
theorem C5_witness :
    ("vs", OutVal.vlist [1, 2]) ∈
      ([("sum", OutVal.single 3), ("vs", OutVal.vlist [1, 2])] : OutRecord) ∧
    ([1, 2] : List Int).length = ([[("v", 1)], [("v", 2)]] : List Record).length ∧
    ("sum", OutVal.single 3) ∈
      ([("sum", OutVal.single 3), ("vs", OutVal.vlist [1, 2])] : OutRecord) ∧
    ("sum", OutVal.single 12) ∈ ([("sum", OutVal.single 12)] : OutRecord) := by
  have core := (C5_mapped_and_aggregated_shapes exampleMix examplePGrouped).1
    [[("v", 1)], [("v", 2)]]
    [("sum", OutVal.single 3), ("vs", OutVal.vlist [1, 2])]
    (by decide) rfl
  obtain ⟨vs, hmem, hlen, -⟩ :=
    core.1 [("vs", MappingField.direct "v")] "vs" (MappingField.direct "v") rfl (by simp)
  obtain ⟨v, hmemv, hv⟩ := core.2 [("sum", Aggregation.tupleAgg "v" (fun vals => vals.sum))]
    "sum" (Aggregation.tupleAgg "v" (fun vals => vals.sum)) rfl (by simp)
  have coreA := (C5_mapped_and_aggregated_shapes exampleAggOnly examplePGrouped).1
    [[("v", 6)], [("v", 4)], [("v", 2)]]
    [("sum", OutVal.single 12)]
    (by decide) rfl
  obtain ⟨w, hmemw, hw⟩ := coreA.2 [("sum", Aggregation.tupleAgg "v" (fun vals => vals.sum))]
    "sum" (Aggregation.tupleAgg "v" (fun vals => vals.sum)) rfl (by simp)
  have hvs : vs = [1, 2] := by
    simp only [List.mem_cons, List.mem_singleton, Prod.mk.injEq] at hmem
    rcases hmem with ⟨-, h⟩ | ⟨-, h⟩ | h
    · cases h
    · cases h; rfl
    · simp at h
  have hveq : v = 3 := by
    have h3 : DictionaryAggregator.resolve_aggregation
        (Aggregation.tupleAgg "v" (fun vals => vals.sum)) [[("v", 1)], [("v", 2)]] =
        some 3 := rfl
    exact Option.some.inj (hv.symm.trans h3)
  have hweq : w = 12 := by
    have h12 : DictionaryAggregator.resolve_aggregation
        (Aggregation.tupleAgg "v" (fun vals => vals.sum))
        [[("v", 6)], [("v", 4)], [("v", 2)]] = some 12 := rfl
    exact Option.some.inj (hw.symm.trans h12)
  rw [hvs] at hmem hlen
  rw [hveq] at hmemv
  rw [hweq] at hmemw
  exact ⟨hmem, hlen, hmemv, hmemw⟩

/-! ## C6: stable sorting by the selector key tuple -/

theorem optionMapList_decorate {f : α → Option β} (d : β) :
    ∀ {xs : List α} {l : List (α × β)},
      optionMapList (fun x => (f x).map (fun k => (x, k))) xs = some l →
      l = xs.map (fun x => (x, (f x).getD d)) := by
  intro xs
  induction xs with
  | nil => intro l h; rw [optionMapList_nil] at h; simp at h; simp [← h]
  | cons x xs ih =>
    intro l h
    rw [optionMapList_cons] at h
    cases hx : f x with
    | none => rw [hx] at h; simp at h
    | some k =>
      rw [hx] at h
      cases hxs : optionMapList (fun x => (f x).map (fun k => (x, k))) xs with
      | none => rw [hxs] at h; simp at h
      | some l' =>
        rw [hxs] at h
        simp at h
        subst h
        simp [hx, ih hxs]

/-- A successful `sort_data` is exactly the stable merge sort of the
key-decorated input, projected back to the records. -/
theorem sort_data_eq_mergeSort (agg : DictionaryAggregator) (sel : List Selector)
    {data out : List Record} (hsel : agg.sort_by = some sel)
    (hsort : agg.sort_data data = some out) :
    out = ((data.map (fun x => (x, keyTupleD sel x))).mergeSort
            (fun p q => lexLe p.2 q.2)).map Prod.fst := by
  unfold DictionaryAggregator.sort_data at hsort
  rw [hsel] at hsort
  have hsort' :
      (match optionMapList (fun item => (keyTuple sel item).map (fun k => (item, k))) data with
       | none => none
       | some keyed =>
         some ((keyed.mergeSort (fun p q => lexLe p.2 q.2)).map Prod.fst)) =
        some out := hsort
  clear hsort
  cases hkeyed : optionMapList
      (fun item => (keyTuple sel item).map (fun k => (item, k))) data with
  | none => rw [hkeyed] at hsort'; simp at hsort'
  | some keyed =>
    rw [hkeyed] at hsort'
    simp only [Option.some.injEq] at hsort'
    rw [← hsort', optionMapList_decorate [] hkeyed]
    rfl

/-- C6: when `sort_by` is configured, a successful sort returns a
permutation of the input that is pairwise ordered under the lexicographic
key comparison, and any two records with equal key tuples keep their
original relative order; when `sort_by` is absent, the sort phase returns
the input untouched — in both aggregator variants. -/
theorem C6_sort_stability (agg : DictionaryAggregator) (aggP : BaseModelAggregator) :
    (∀ sel data out, agg.sort_by = some sel → agg.sort_data data = some out →
      out.Perm data ∧
      List.Pairwise (fun p q => lexLe (keyTupleD sel p) (keyTupleD sel q)) out ∧
      ∀ a b, List.Sublist [a, b] data → keyTuple sel a = keyTuple sel b →
        List.Sublist [a, b] out) ∧
    (agg.sort_by = none → ∀ data, agg.sortPhase data = some data) ∧
    (∀ sel data out, aggP.sort_by = some sel → aggP.sort_data data = some out →
      out.Perm data ∧
      List.Pairwise (fun p q => lexLe (keyTupleD sel p) (keyTupleD sel q)) out ∧
      ∀ a b, List.Sublist [a, b] data → keyTuple sel a = keyTuple sel b →
        List.Sublist [a, b] out) ∧
    (aggP.sort_by = none → ∀ data, aggP.sortPhase data = some data) := by
  have trans' : ∀ (p q r : Record × List Int),
      lexLe p.2 q.2 → lexLe q.2 r.2 → lexLe p.2 r.2 :=
    fun p q r hpq hqr => lexLe_trans p.2 q.2 r.2 hpq hqr
  have total' : ∀ (p q : Record × List Int), lexLe p.2 q.2 || lexLe q.2 p.2 :=
    fun p q => lexLe_total p.2 q.2
  have main : ∀ (a : DictionaryAggregator) sel data out,
      a.sort_by = some sel → a.sort_data data = some out →
      out.Perm data ∧
      List.Pairwise (fun p q => lexLe (keyTupleD sel p) (keyTupleD sel q)) out ∧
      ∀ x y, List.Sublist [x, y] data → keyTuple sel x = keyTuple sel y →
        List.Sublist [x, y] out := by
    intro a sel data out hsel hsort
    have hout := sort_data_eq_mergeSort a sel hsel hsort
    set dec := data.map (fun x => (x, keyTupleD sel x)) with hdec
    refine ⟨?_, ?_, ?_⟩
    · rw [hout]
      have h1 : List.Perm ((dec.mergeSort (fun p q => lexLe p.2 q.2)).map Prod.fst)
          (dec.map Prod.fst) := (List.mergeSort_perm dec _).map Prod.fst
      have h2 : dec.map Prod.fst = data := by
        rw [hdec, List.map_map]
        have hid : (Prod.fst ∘ fun x : Record => (x, keyTupleD sel x)) = id := rfl
        rw [hid, List.map_id]
      rw [h2] at h1
      exact h1
    · rw [hout]
      rw [List.pairwise_map]
      have hsorted : List.Pairwise (fun p q : Record × List Int => lexLe p.2 q.2)
          (dec.mergeSort (fun p q => lexLe p.2 q.2)) :=
        List.sorted_mergeSort trans' total' dec
      refine hsorted.imp_of_mem ?_
      intro p q hp hq hpq
      have hmemdec : ∀ r : Record × List Int,
          r ∈ dec.mergeSort (fun p q => lexLe p.2 q.2) → r.2 = keyTupleD sel r.1 := by
        intro r hr
        have : r ∈ dec := (List.mergeSort_perm dec _).subset hr
        rw [hdec] at this
        obtain ⟨x, -, hx⟩ := List.mem_map.mp this
        rw [← hx]
      rw [← hmemdec p hp, ← hmemdec q hq]
      exact hpq
    · intro x y hxy hkey
      rw [hout]
      have hdecsub : List.Sublist [(x, keyTupleD sel x), (y, keyTupleD sel y)] dec := by
        rw [hdec]
        exact List.Sublist.map (fun x => (x, keyTupleD sel x)) hxy
      have hle : lexLe (keyTupleD sel x) (keyTupleD sel y) := by
        unfold keyTupleD
        rw [hkey]
        exact lexLe_refl _
      have := List.pair_sublist_mergeSort trans' total' hle hdecsub
      have hmapped := List.Sublist.map Prod.fst this
      simpa using hmapped
  refine ⟨main agg, ?_, ?_, ?_⟩
  · intro hnone data
    unfold DictionaryAggregator.sortPhase
    rw [hnone]
  · intro sel data out hsel hsort
    rw [BaseModelAggregator.sort_data_eq_dict] at hsort
    exact main aggP.toDictionaryAggregator sel data out hsel hsort
  · intro hnone data
    unfold BaseModelAggregator.sortPhase
    rw [hnone]

/-- Records and configuration for the C6 witness: two records with equal
sort keys. -/
def recA : Record := [("k", 1), ("v", 10)]

def recB : Record := [("k", 1), ("v", 20)]

def exampleSorted : DictionaryAggregator :=
  ⟨none, some [Selector.field "k"], some [("vals", MappingField.direct "v")], none⟩

/-- C6 witness: sorting two equal-key records keeps them in input order. -/
theorem C6_witness :
    exampleSorted.sort_data [recA, recB] = some [recA, recB] ∧
    List.Sublist [recA, recB] [recA, recB] := by
  have hms : (([(recA, ([1] : List Int)), (recB, [1])]).mergeSort
      (fun p q => lexLe p.2 q.2)) = [(recA, [1]), (recB, [1])] :=
    List.mergeSort_of_sorted (by decide)
  have hsort : exampleSorted.sort_data [recA, recB] = some [recA, recB] := by
    have h0 : exampleSorted.sort_data [recA, recB] =
        some ((([(recA, ([1] : List Int)), (recB, [1])]).mergeSort
          (fun p q => lexLe p.2 q.2)).map Prod.fst) := rfl
    rw [h0, hms]
    rfl
  refine ⟨hsort, ?_⟩
  exact ((C6_sort_stability exampleSorted examplePGrouped).1 [Selector.field "k"]
    [recA, recB] [recA, recB] rfl hsort).2.2 recA recB (List.Sublist.refl _) rfl

/-! ## C7: grouping is an ordered partition -/

theorem insertItem_of_not_mem {k : List Int} {r : Record} :
    ∀ {acc : List (List Int × List Record)}, k ∉ acc.map Prod.fst →
      DictionaryAggregator.insertItem k r acc = acc ++ [(k, [r])] := by
  intro acc
  induction acc with
  | nil => intro _; rfl
  | cons e rest ih =>
    obtain ⟨k', g⟩ := e
    intro h
    simp only [List.map_cons, List.mem_cons] at h
    push_neg at h
    unfold DictionaryAggregator.insertItem
    rw [if_neg (fun he => h.1 he.symm)]
    rw [ih h.2]
    rfl

theorem insertItem_of_mem {k : List Int} {r : Record} :
    ∀ {acc : List (List Int × List Record)}, (acc.map Prod.fst).Nodup →
      k ∈ acc.map Prod.fst →
      DictionaryAggregator.insertItem k r acc =
        acc.map (fun e => if e.1 = k then (e.1, e.2 ++ [r]) else e) := by
  intro acc
  induction acc with
  | nil => intro _ h; simp at h
  | cons e rest ih =>
    obtain ⟨k', g⟩ := e
    intro hnd hmem
    simp only [List.map_cons, List.nodup_cons] at hnd
    unfold DictionaryAggregator.insertItem
    by_cases hk : k' = k
    · subst hk
      rw [if_pos rfl, List.map_cons]
      have hrest : rest.map (fun e => if e.1 = k' then (e.1, e.2 ++ [r]) else e) = rest := by
        have hpt : ∀ e ∈ rest, (if e.1 = k' then (e.1, e.2 ++ [r]) else e) = e := by
          intro e he
          rw [if_neg]
          intro h1
          exact hnd.1 (h1 ▸ List.mem_map_of_mem Prod.fst he)
        calc rest.map (fun e => if e.1 = k' then (e.1, e.2 ++ [r]) else e)
            = rest.map id := List.map_congr_left hpt
          _ = rest := List.map_id rest
      rw [hrest]
      simp
    · have hmem' : k ∈ rest.map Prod.fst := by
        simp only [List.map_cons, List.mem_cons] at hmem
        rcases hmem with h | h
        · exact absurd h.symm hk
        · exact h
      rw [if_neg hk, List.map_cons, ih hnd.2 hmem']
      have : (if k' = k then ((k', g) : List Int × List Record).1 = k else True) := by
        simp [hk]
      simp [hk]

theorem groupFold_append :
    ∀ (ps : List (List Int × Record)) (acc : List (List Int × List Record))
      (q : List Int × Record),
      DictionaryAggregator.groupFold acc (ps ++ [q]) =
        DictionaryAggregator.insertItem q.1 q.2 (DictionaryAggregator.groupFold acc ps) := by
  intro ps
  induction ps with
  | nil =>
    intro acc q
    obtain ⟨k, r⟩ := q
    rfl
  | cons p rest ih =>
    intro acc q
    obtain ⟨k, r⟩ := p
    exact ih (DictionaryAggregator.insertItem k r acc) q

theorem firstOccur_append_singleton [DecidableEq α] (a : α) :
    ∀ (l : List α), firstOccur (l ++ [a]) =
      if a ∈ l then firstOccur l else firstOccur l ++ [a] := by
  intro l
  induction l with
  | nil => simp [firstOccur]
  | cons b l ih =>
    show firstOccur (b :: (l ++ [a])) = _
    rw [show firstOccur (b :: (l ++ [a])) =
          b :: (firstOccur (l ++ [a])).filter (fun x => x ≠ b) from rfl]
    rw [ih]
    by_cases hab : a ∈ l
    · rw [if_pos hab, if_pos (List.mem_cons_of_mem b hab)]
      rfl
    · rw [if_neg hab]
      by_cases haeb : a = b
      · subst haeb
        rw [if_pos (List.mem_cons_self a l), List.filter_append]
        simp [firstOccur]
      · rw [if_neg (fun h => by
          rcases List.mem_cons.mp h with h | h
          · exact haeb h
          · exact hab h)]
        rw [List.filter_append]
        have : ([a].filter (fun x => x ≠ b)) = [a] := by simp [haeb]
        rw [this]
        rfl

/-- The bucket list the grouping loop builds: distinct keys in
first-appearance order, each paired with its records in input order. -/
def groupsSpec (ps : List (List Int × Record)) : List (List Int × List Record) :=
  (firstOccur (ps.map Prod.fst)).map
    (fun k => (k, (ps.filter (fun p => p.1 = k)).map Prod.snd))

theorem filter_key_eq_nil {k : List Int} {ps : List (List Int × Record)}
    (h : k ∉ ps.map Prod.fst) :
    ps.filter (fun p => p.1 = k) = [] := by
  rw [List.filter_eq_nil_iff]
  intro p hp
  simp only [decide_eq_true_eq]
  intro h1
  exact h (h1 ▸ List.mem_map_of_mem Prod.fst hp)

theorem groupsSpec_keys (l : List (List Int × Record)) :
    (groupsSpec l).map Prod.fst = firstOccur (l.map Prod.fst) := by
  unfold groupsSpec
  rw [List.map_map]
  have hid : (Prod.fst ∘ fun k : List Int =>
      (k, (l.filter (fun p => p.1 = k)).map Prod.snd)) = id := rfl
  rw [hid, List.map_id]

theorem insertItem_groupsSpec (l : List (List Int × Record)) (q : List Int × Record) :
    DictionaryAggregator.insertItem q.1 q.2 (groupsSpec l) = groupsSpec (l ++ [q]) := by
  obtain ⟨k, r⟩ := q
  by_cases hmem : k ∈ l.map Prod.fst
  · rw [insertItem_of_mem
      (by rw [groupsSpec_keys]; exact nodup_firstOccur _)
      (by rw [groupsSpec_keys]; exact mem_firstOccur.mpr hmem)]
    unfold groupsSpec
    rw [List.map_map]
    rw [List.map_append]
    rw [show ([(k, r)] : List (List Int × Record)).map Prod.fst = [k] from rfl]
    rw [firstOccur_append_singleton k (l.map Prod.fst), if_pos hmem]
    apply List.map_congr_left
    intro k' _
    simp only [Function.comp_apply]
    by_cases hkk : k' = k
    · subst hkk
      rw [if_pos rfl, List.filter_append]
      simp
    · rw [if_neg hkk, List.filter_append]
      have : ([(k, r)] : List (List Int × Record)).filter (fun p => p.1 = k') = [] := by
        simp [Ne.symm hkk]
      rw [this, List.append_nil]
  · rw [insertItem_of_not_mem
      (by rw [groupsSpec_keys]; exact fun h => hmem (mem_firstOccur.mp h))]
    unfold groupsSpec
    rw [List.map_append]
    rw [show ([(k, r)] : List (List Int × Record)).map Prod.fst = [k] from rfl]
    rw [firstOccur_append_singleton k (l.map Prod.fst), if_neg hmem]
    rw [List.map_append]
    congr 1
    · apply List.map_congr_left
      intro k' hk'
      have hk'mem : k' ∈ l.map Prod.fst := mem_firstOccur.mp hk'
      have hne : k ≠ k' := fun h => hmem (h ▸ hk'mem)
      rw [List.filter_append]
      have : ([(k, r)] : List (List Int × Record)).filter (fun p => p.1 = k') = [] := by
        simp [hne]
      rw [this, List.append_nil]
    · simp only [List.map_cons, List.map_nil]
      rw [List.filter_append, filter_key_eq_nil hmem]
      simp

theorem groupFold_eq_groupsSpec (ps : List (List Int × Record)) :
    DictionaryAggregator.groupFold [] ps = groupsSpec ps := by
  induction ps using List.reverseRecOn with
  | nil => rfl
  | append_singleton l q ih => rw [groupFold_append, ih, insertItem_groupsSpec]

theorem optionMapList_decorate_key {f : α → Option β} (d : β) :
    ∀ {xs : List α} {l : List (β × α)},
      optionMapList (fun x => (f x).map (fun k => (k, x))) xs = some l →
      l = xs.map (fun x => ((f x).getD d, x)) := by
  intro xs
  induction xs with
  | nil => intro l h; rw [optionMapList_nil] at h; simp at h; simp [← h]
  | cons x xs ih =>
    intro l h
    rw [optionMapList_cons] at h
    cases hx : f x with
    | none => rw [hx] at h; simp at h
    | some k =>
      rw [hx] at h
      cases hxs : optionMapList (fun x => (f x).map (fun k => (k, x))) xs with
      | none => rw [hxs] at h; simp at h
      | some l' =>
        rw [hxs] at h
        simp at h
        subst h
        simp [hx, ih hxs]

/-- A successful `group_data` is exactly: distinct key tuples in order of
first appearance, each mapped to the sublist of records carrying that key. -/
theorem group_data_characterization (agg : DictionaryAggregator) (sel : List Selector)
    {data : List Record} {gs : List (List Record)}
    (hsel : agg.group_by = some sel) (hgd : agg.group_data data = some gs) :
    gs = (firstOccur (data.map (keyTupleD sel))).map
           (fun k => data.filter (fun x => keyTupleD sel x = k)) := by
  unfold DictionaryAggregator.group_data at hgd
  rw [hsel] at hgd
  have hgd' :
      (match optionMapList (fun item => (keyTuple sel item).map (fun k => (k, item))) data with
       | none => none
       | some keyed =>
         some ((DictionaryAggregator.groupFold [] keyed).map Prod.snd)) = some gs := hgd
  clear hgd
  cases hkeyed : optionMapList
      (fun item => (keyTuple sel item).map (fun k => (k, item))) data with
  | none => rw [hkeyed] at hgd'; simp at hgd'
  | some keyed =>
    rw [hkeyed] at hgd'
    simp only [Option.some.injEq] at hgd'
    have hdec : keyed = data.map (fun x => (keyTupleD sel x, x)) :=
      optionMapList_decorate_key [] hkeyed
    rw [← hgd', groupFold_eq_groupsSpec, hdec]
    unfold groupsSpec
    rw [List.map_map, List.map_map]
    rw [show (Prod.fst ∘ fun x : Record => (keyTupleD sel x, x)) = keyTupleD sel from rfl]
    apply List.map_congr_left
    intro k _
    simp only [Function.comp_apply]
    rw [List.filter_map, List.map_map]
    rw [show (Prod.snd ∘ fun x : Record => (keyTupleD sel x, x)) = id from rfl, List.map_id]
    apply List.filter_congr
    intro x _
    rfl

theorem sum_ite_count {K : Type} [DecidableEq K] (c : Nat) (k0 : K) :
    ∀ (ks : List K), (ks.map (fun k => if k0 = k then c else 0)).sum = c * ks.count k0 := by
  intro ks
  induction ks with
  | nil => simp
  | cons k ks ih =>
    simp only [List.map_cons, List.sum_cons, ih, List.count_cons]
    by_cases h : k0 = k
    · subst h
      simp [Nat.mul_add]
      omega
    · have hbeq : (k == k0) = false := by
        simp only [beq_eq_false_iff_ne, ne_eq]
        exact fun he => h he.symm
      simp [h, hbeq]

theorem count_filter_eq {α : Type} [DecidableEq α] {p : α → Bool} {r : α}
    (data : List α) :
    List.count r (data.filter p) = if p r then List.count r data else 0 := by
  by_cases h : p r
  · rw [if_pos h, List.count_filter h]
  · rw [if_neg h, List.count_eq_zero]
    intro hmem
    exact h (List.mem_filter.mp hmem).2

theorem groups_flatten_perm {K : Type} [DecidableEq K] {α : Type} [DecidableEq α]
    (key : α → K) (data : List α) :
    ((firstOccur (data.map key)).map
      (fun k => data.filter (fun x => key x = k))).flatten.Perm data := by
  rw [List.perm_iff_count]
  intro r
  rw [List.count_flatten, List.map_map]
  have hpt : ∀ k ∈ firstOccur (data.map key),
      (List.count r ∘ fun k => data.filter (fun x => key x = k)) k =
        (fun k => if key r = k then List.count r data else 0) k := by
    intro k _
    simp only [Function.comp_apply]
    rw [count_filter_eq]
    by_cases h : key r = k
    · simp [h]
    · simp [h]
  rw [List.map_congr_left hpt, sum_ite_count]
  by_cases hr : r ∈ data
  · rw [List.count_eq_one_of_mem (nodup_firstOccur _)
      (mem_firstOccur.mpr (List.mem_map_of_mem key hr))]
    simp
  · rw [List.count_eq_zero.mpr hr]
    simp

theorem groups_unique_membership {K : Type} [DecidableEq K]
    (key : Record → K) (data : List Record) (x : Record) (hx : x ∈ data) :
    ((firstOccur (data.map key)).map
      (fun k => data.filter (fun y => key y = k))).countP (fun g => x ∈ g) = 1 := by
  rw [List.countP_map]
  have h1 : ∀ k ∈ firstOccur (data.map key),
      (((fun g => decide (x ∈ g)) ∘ fun k => data.filter (fun y => key y = k)) k = true) ↔
        ((fun k => decide (key x = k)) k = true) := by
    intro k _
    simp only [Function.comp_apply, decide_eq_true_eq, List.mem_filter]
    constructor
    · intro h
      simpa using h.2
    · intro h
      exact ⟨hx, by simpa using h⟩
  rw [List.countP_congr h1]
  have h2 : ∀ k ∈ firstOccur (data.map key),
      ((fun k => decide (key x = k)) k = true) ↔ ((fun k => k == key x) k = true) := by
    intro k _
    simp only [decide_eq_true_eq, beq_iff_eq]
    exact eq_comm
  rw [List.countP_congr h2]
  exact List.count_eq_one_of_mem (nodup_firstOccur _)
    (mem_firstOccur.mpr (List.mem_map_of_mem key hx))

/-- C7: when `group_by` is configured, a successful `group_data` emits, for
each distinct key tuple in order of first appearance, the sublist of the
(possibly sorted) input carrying that key (so relative order within each
group is preserved); flattening the groups is a permutation of the input
and every record lies in exactly one group — in both aggregator variants. -/
theorem C7_grouping_partition (agg : DictionaryAggregator) (aggP : BaseModelAggregator) :
    (∀ sel data gs, agg.group_by = some sel → agg.group_data data = some gs →
      gs = (firstOccur (data.map (keyTupleD sel))).map
             (fun k => data.filter (fun x => keyTupleD sel x = k)) ∧
      (firstOccur (data.map (keyTupleD sel))).Nodup ∧
      gs.flatten.Perm data ∧
      ∀ x ∈ data, gs.countP (fun g => x ∈ g) = 1) ∧
    (∀ sel data gs, aggP.group_by = some sel → aggP.group_data data = some gs →
      gs = (firstOccur (data.map (keyTupleD sel))).map
             (fun k => data.filter (fun x => keyTupleD sel x = k)) ∧
      (firstOccur (data.map (keyTupleD sel))).Nodup ∧
      gs.flatten.Perm data ∧
      ∀ x ∈ data, gs.countP (fun g => x ∈ g) = 1) := by
  have main : ∀ (a : DictionaryAggregator) sel data gs,
      a.group_by = some sel → a.group_data data = some gs →
      gs = (firstOccur (data.map (keyTupleD sel))).map
             (fun k => data.filter (fun x => keyTupleD sel x = k)) ∧
      (firstOccur (data.map (keyTupleD sel))).Nodup ∧
      gs.flatten.Perm data ∧
      ∀ x ∈ data, gs.countP (fun g => x ∈ g) = 1 := by
    intro a sel data gs hsel hgd
    have hchar := group_data_characterization a sel hsel hgd
    refine ⟨hchar, nodup_firstOccur _, ?_, ?_⟩
    · rw [hchar]
      exact groups_flatten_perm (keyTupleD sel) data
    · intro x hx
      rw [hchar]
      exact groups_unique_membership (keyTupleD sel) data x hx
  refine ⟨main agg, ?_⟩
  intro sel data gs hsel hgd
  rw [BaseModelAggregator.group_data_eq_dict] at hgd
  exact main aggP.toDictionaryAggregator sel data gs hsel hgd

/-- C7 witness: grouping three records over the key `parent` (values 1, 2, 1)
yields the two groups in first-appearance order, partitioning the input. -/
theorem C7_witness :
    exampleGrouped.group_data
      [[("parent", 1), ("id", 10)], [("parent", 2), ("id", 20)],
       [("parent", 1), ("id", 30)]] =
      some [[[("parent", 1), ("id", 10)], [("parent", 1), ("id", 30)]],
            [[("parent", 2), ("id", 20)]]] ∧
    List.Perm
      ([[[("parent", 1), ("id", 10)], [("parent", 1), ("id", 30)]],
        [[("parent", 2), ("id", 20)]]] : List (List Record)).flatten
      [[("parent", 1), ("id", 10)], [("parent", 2), ("id", 20)],
       [("parent", 1), ("id", 30)]] ∧
    ([[[("parent", 1), ("id", 10)], [("parent", 1), ("id", 30)]],
      [[("parent", 2), ("id", 20)]]] : List (List Record)).countP
      (fun g => [("parent", 1), ("id", 10)] ∈ g) = 1 := by
  have hgd : exampleGrouped.group_data
      [[("parent", 1), ("id", 10)], [("parent", 2), ("id", 20)],
       [("parent", 1), ("id", 30)]] =
      some [[[("parent", 1), ("id", 10)], [("parent", 1), ("id", 30)]],
            [[("parent", 2), ("id", 20)]]] := rfl
  have h := (C7_grouping_partition exampleGrouped examplePGrouped).1
    [Selector.field "parent"] _ _ rfl hgd
  exact ⟨hgd, h.2.2.1, h.2.2.2 _ (by simp)⟩

/-! ## C8: callable classification in the binder -/

/-- C8: classification is by membership of the (underlying) function object
in the class's member lists: a plain instance method is curried with `self`;
a `classmethod` of the class is unwrapped and curried with the class; a
`staticmethod` of the class is unwrapped and returned uncurried; a plain
function not defined on the class is returned unchanged. -/
theorem C8_resolve_callable_classification (C : PyClass) (c : PyCallable) :
    (∀ id, c = .func id → id ∈ C.instanceMethods →
      resolve_callable C c = .curriedSelf c) ∧
    (∀ id, c = .classMethodObj id → id ∈ C.classMethods →
      resolve_callable C c = .curriedCls id) ∧
    (∀ id, c = .staticMethodObj id → id ∈ C.staticMethods →
      resolve_callable C c = .underlying id) ∧
    (∀ id, c = .func id → id ∉ C.functions →
      resolve_callable C c = .unchanged c) := by
  refine ⟨?_, ?_, ?_, ?_⟩
  · intro id hc hmem
    subst hc
    unfold resolve_callable
    rw [if_pos]
    show PyClass.is_instance_method C (.func id) = true
    unfold PyClass.is_instance_method
    simp [PyClass.functions, List.contains, hmem]
  · intro id hc hmem
    subst hc
    unfold resolve_callable
    rw [if_neg, if_pos]
    · rfl
    · show PyClass.is_class_method C (.classMethodObj id) = true
      unfold PyClass.is_class_method
      simp [PyClass.methods, List.contains, hmem]
    · show ¬ PyClass.is_instance_method C (.classMethodObj id) = true
      unfold PyClass.is_instance_method
      simp
  · intro id hc hmem
    subst hc
    unfold resolve_callable
    rw [if_neg, if_neg, if_pos]
    · rfl
    · show PyClass.is_static_method C (.staticMethodObj id) = true
      unfold PyClass.is_static_method
      simp [PyClass.functions, List.contains, List.mem_append, hmem]
    · show ¬ PyClass.is_class_method C (.staticMethodObj id) = true
      unfold PyClass.is_class_method
      simp
    · show ¬ PyClass.is_instance_method C (.staticMethodObj id) = true
      unfold PyClass.is_instance_method
      simp
  · intro id hc hmem
    subst hc
    unfold resolve_callable
    rw [if_neg, if_neg, if_neg]
    · show ¬ PyClass.is_static_method C (.func id) = true
      unfold PyClass.is_static_method
      simp
    · show ¬ PyClass.is_class_method C (.func id) = true
      unfold PyClass.is_class_method
      simp
    · show ¬ PyClass.is_instance_method C (.func id) = true
      unfold PyClass.is_instance_method
      simp [List.contains, hmem]

/-- Example class for the C8 witness: function ids 1 (instance method),
2 (classmethod), 3 (staticmethod). -/
def exampleClass : PyClass := ⟨[1], [2], [3]⟩

/-- C8 witness: the four classifications at the example class. -/
theorem C8_witness :
    resolve_callable exampleClass (.func 1) = .curriedSelf (.func 1) ∧
    resolve_callable exampleClass (.classMethodObj 2) = .curriedCls 2 ∧
    resolve_callable exampleClass (.staticMethodObj 3) = .underlying 3 ∧
    resolve_callable exampleClass (.func 99) = .unchanged (.func 99) := by
  refine ⟨?_, ?_, ?_, ?_⟩
  · exact (C8_resolve_callable_classification exampleClass (.func 1)).1 1 rfl (by decide)
  · exact (C8_resolve_callable_classification exampleClass (.classMethodObj 2)).2.1 2 rfl
      (by decide)
  · exact (C8_resolve_callable_classification exampleClass (.staticMethodObj 3)).2.2.1 3 rfl
      (by decide)
  · exact (C8_resolve_callable_classification exampleClass (.func 99)).2.2.2 99 rfl
      (by decide)

/-! ## C10: aggregate never mutates the caller's list -/

/-- Reading below the old length is unaffected by an allocation. -/
theorem heapRead_alloc (h : Heap) (v : List Record) {r : Nat} (hr : r < h.length) :
    heapRead (heapAlloc h v).1 r = heapRead h r := by
  unfold heapRead heapAlloc
  show (h ++ [v])[r]?.getD [] = h[r]?.getD []
  rw [List.getElem?_append, if_pos hr]

/-- Reading the freshly allocated cell yields the allocated list. -/
theorem heapRead_alloc_new (h : Heap) (v : List Record) :
    heapRead (heapAlloc h v).1 (heapAlloc h v).2 = v := by
  unfold heapRead heapAlloc
  simp

/-- C10: running `aggregate` through the heap model leaves the caller's
list object untouched (sorting allocates a fresh list and only the local
name is rebound), and the produced output is exactly that of the pure
`aggregate` on the list the caller passed. -/
theorem C10_caller_list_unchanged (agg : DictionaryAggregator) (h : Heap) (r : Nat)
    (h' : Heap) (out : List OutRecord) (hr : r < h.length)
    (hrun : agg.aggregateWithHeap h r = some (h', out)) :
    heapRead h' r = heapRead h r ∧ agg.aggregate (heapRead h r) = some out := by
  unfold DictionaryAggregator.aggregateWithHeap at hrun
  unfold DictionaryAggregator.aggregate
  cases hsb : agg.sort_by with
  | none =>
    rw [hsb] at hrun
    have hrun' :
        (match
          (match agg.group_by with
           | none => some [heapRead h r]
           | some _ => agg.group_data (heapRead h r))
        with
        | none => none
        | some groups =>
          match optionMapList agg.resolve_group_objects groups with
          | none => none
          | some resolved => some (h, resolved)) = some (h', out) := hrun
    clear hrun
    have hphase : agg.sortPhase (heapRead h r) = some (heapRead h r) := by
      unfold DictionaryAggregator.sortPhase
      rw [hsb]
    rw [hphase]
    show heapRead h' r = heapRead h r ∧
      (match
        (match agg.group_by with
         | none => some [heapRead h r]
         | some _ => agg.group_data (heapRead h r))
      with
      | none => none
      | some groups => optionMapList agg.resolve_group_objects groups) = some out
    cases hgrp : (match agg.group_by with
                  | none => some [heapRead h r]
                  | some _ => agg.group_data (heapRead h r)) with
    | none => rw [hgrp] at hrun'; simp at hrun'
    | some groups =>
      rw [hgrp] at hrun'
      have hrun2 :
          (match optionMapList agg.resolve_group_objects groups with
           | none => none
           | some resolved => some ((h : Heap), resolved)) = some (h', out) := hrun'
      clear hrun'
      cases hres : optionMapList agg.resolve_group_objects groups with
      | none => rw [hres] at hrun2; simp at hrun2
      | some resolved =>
        rw [hres] at hrun2
        simp only [Option.some.injEq, Prod.mk.injEq] at hrun2
        refine ⟨by rw [← hrun2.1], ?_⟩
        show optionMapList agg.resolve_group_objects groups = some out
        rw [hres, hrun2.2]
  | some sel =>
    rw [hsb] at hrun
    have hrun' :
        (match agg.sort_data_heap h r with
         | none => none
         | some (h1, r1) =>
           let data1 := heapRead h1 r1
           match
             (match agg.group_by with
              | none => some [data1]
              | some _ => agg.group_data data1)
           with
           | none => none
           | some groups =>
             match optionMapList agg.resolve_group_objects groups with
             | none => none
             | some resolved => some (h1, resolved)) = some (h', out) := hrun
    clear hrun
    cases hsd : agg.sort_data (heapRead h r) with
    | none =>
      have hsdh : agg.sort_data_heap h r = none := by
        unfold DictionaryAggregator.sort_data_heap
        rw [hsd]
      rw [hsdh] at hrun'
      simp at hrun'
    | some sortedList =>
      have hsdh : agg.sort_data_heap h r = some (heapAlloc h sortedList) := by
        unfold DictionaryAggregator.sort_data_heap
        rw [hsd]
      rw [hsdh] at hrun'
      have hphase : agg.sortPhase (heapRead h r) = some sortedList := by
        unfold DictionaryAggregator.sortPhase
        rw [hsb]
        exact hsd
      rw [hphase]
      have hrun2 :
          (match
            (match agg.group_by with
             | none => some [heapRead (heapAlloc h sortedList).1 (heapAlloc h sortedList).2]
             | some _ =>
               agg.group_data (heapRead (heapAlloc h sortedList).1 (heapAlloc h sortedList).2))
          with
          | none => none
          | some groups =>
            match optionMapList agg.resolve_group_objects groups with
            | none => none
            | some resolved => some ((heapAlloc h sortedList).1, resolved)) =
            some (h', out) := hrun'
      clear hrun'
      have hnew : heapRead (heapAlloc h sortedList).1 (heapAlloc h sortedList).2 =
          sortedList := heapRead_alloc_new h sortedList
      rw [hnew] at hrun2
      show heapRead h' r = heapRead h r ∧
        (match
          (match agg.group_by with
           | none => some [sortedList]
           | some _ => agg.group_data sortedList)
        with
        | none => none
        | some groups => optionMapList agg.resolve_group_objects groups) = some out
      cases hgrp : (match agg.group_by with
                    | none => some [sortedList]
                    | some _ => agg.group_data sortedList) with
      | none => rw [hgrp] at hrun2; simp at hrun2
      | some groups =>
        rw [hgrp] at hrun2
        have hrun3 :
            (match optionMapList agg.resolve_group_objects groups with
             | none => none
             | some resolved => some ((heapAlloc h sortedList).1, resolved)) =
              some (h', out) := hrun2
        clear hrun2
        cases hres : optionMapList agg.resolve_group_objects groups with
        | none => rw [hres] at hrun3; simp at hrun3
        | some resolved =>
          rw [hres] at hrun3
          simp only [Option.some.injEq, Prod.mk.injEq] at hrun3
          refine ⟨?_, ?_⟩
          · rw [← hrun3.1]
            exact heapRead_alloc h sortedList hr
          · show optionMapList agg.resolve_group_objects groups = some out
            rw [hres, hrun3.2]

/-- C10 witness: a concrete heap run whose caller cell is unchanged. -/
theorem C10_witness :
    exampleUngrouped.aggregateWithHeap [[[("id", 7)]]] 0 =
      some ([[[("id", 7)]]], [[("ids", OutVal.vlist [7])]]) ∧
    heapRead [[[("id", 7)]]] 0 = [[("id", 7)]] ∧
    exampleUngrouped.aggregate (heapRead [[[("id", 7)]]] 0) =
      some [[("ids", OutVal.vlist [7])]] := by
  have hrun : exampleUngrouped.aggregateWithHeap [[[("id", 7)]]] 0 =
      some ([[[("id", 7)]]], [[("ids", OutVal.vlist [7])]]) := rfl
  refine ⟨hrun, rfl, ?_⟩
  exact (C10_caller_list_unchanged exampleUngrouped [[[("id", 7)]]] 0
    [[[("id", 7)]]] [[("ids", OutVal.vlist [7])]] (by decide) hrun).2

end PyTransmuter
